import Mathlib

/-!
# Wordle front end: the guess-session state machine of `script.js`

A shallow embedding of the state and the operations of
`src/wordle-frontend/wordle-game-main/script.js`, and theorems about them.

Conventions of the embedding.

* A grid slot holds `""` or the one-character string written by `insertLetter`;
  it is an `Option Char` (`none` for `""`).  The one call of `insertLetter`
  (line 95) passes a single upper-cased letter, so its argument is a `Char`.
* `init` has run: the tiles and the key buttons made by `buildBoard` and
  `buildKeyboard` exist, so the DOM lookups of `insertLetter`, `deleteLetter`
  and `applyColors` find their element.
* The module-scoped variables `boardState`, `currentRow`, `currentCol`,
  `isGameOver`, `isSubmitting` are the fields of `GameState`.  The DOM is kept
  only as far as the logic reads it back: `dataset.state` of the key buttons
  (`keyState`) and the texts passed to `showMessage` (`messages`, oldest first)
  and to `console.error` (`errorLog`).  Tile classes, inline colours and timers
  are written but never read, and are left out.
* A call that throws an uncaught `TypeError` (reading a property of
  `undefined`) returns `none`.
* `triggerSubmit` is `async` with one `await`: `triggerSubmitStart` is the part
  that runs before the judge answers, `triggerSubmitResume` the part after.
* A `Session` is the page state together with the guess of a suspended
  `triggerSubmit`; its events are `handleKey` calls and the judge's response.
-/

namespace Wordle

/-! ## Configuration (lines 4-5) -/

/-- `const ROWS = 6` -/
def ROWS : Nat := 6

/-- `const COLS = 5` -/
def COLS : Nat := 5

/-! ## State (lines 17-21) -/

/-- One slot of the board: `none` is the empty string. -/
abbrev Slot := Option Char

/-- The three class names `mapColorToClass` can return, which are also the
values `updateKeyboardColors` stores in `dataset.state`. -/
inductive LetterState
  | correct
  | present
  | absent
  deriving DecidableEq, Repr

/-- The mutable state of the page. -/
structure GameState where
  /-- `boardState` -/
  boardState : List (List Slot)
  /-- `currentRow` -/
  currentRow : Nat
  /-- `currentCol` -/
  currentCol : Nat
  /-- `isGameOver` -/
  isGameOver : Bool
  /-- `isSubmitting` -/
  isSubmitting : Bool
  /-- `keyButton.dataset.state` of the button of each letter (`none`: unset) -/
  keyState : Char → Option LetterState
  /-- every text passed to `showMessage`, oldest first -/
  messages : List String
  /-- every error passed to `console.error`, oldest first -/
  errorLog : List String

/-- The state when the script has loaded and `init` has run (lines 17-21, 36). -/
def initialState : GameState :=
  { boardState := List.replicate ROWS (List.replicate COLS none)
    currentRow := 0
    currentCol := 0
    isGameOver := false
    isSubmitting := false
    keyState := fun _ => none
    messages := ["游戏开始！请输入单词..."]
    errorLog := [] }

/-- `showMessage(text)` (lines 265-273): the text is put on display. -/
def showMessage (s : GameState) (text : String) : GameState :=
  { s with messages := s.messages ++ [text] }

/-- `console.error(err)` (line 179). -/
def consoleError (s : GameState) (err : String) : GameState :=
  { s with errorLog := s.errorLog ++ [err] }

/-- The text on display: the last one passed to `showMessage`. -/
def displayed (s : GameState) : Option String :=
  s.messages.getLast?

/-- `boardState[currentRow]`, `none` when it is `undefined`. -/
def currentRowSlots (s : GameState) : Option (List Slot) :=
  s.boardState[s.currentRow]?

/-- The number of non-empty slots of a row. -/
def filledCount (row : List Slot) : Nat :=
  row.countP Option.isSome

/-! ## Editing the current row (lines 103-119) -/

/-- `insertLetter(ch)` (lines 103-110). -/
def insertLetter (ch : Char) (s : GameState) : Option GameState :=
  if s.currentCol ≥ COLS then some s
  else
    match s.boardState[s.currentRow]? with
    | none => none
    | some row =>
      some { s with
        boardState := s.boardState.set s.currentRow (row.set s.currentCol (some ch))
        currentCol := s.currentCol + 1 }

/-- `deleteLetter()` (lines 112-119). -/
def deleteLetter (s : GameState) : Option GameState :=
  if s.currentCol ≤ 0 then some s
  else
    match s.boardState[s.currentRow]? with
    | none => none
    | some row =>
      some { s with
        boardState := s.boardState.set s.currentRow (row.set (s.currentCol - 1) none)
        currentCol := s.currentCol - 1 }

/-- One call of `insertLetter` or `deleteLetter`. -/
inductive EditOp
  | insert (ch : Char)
  | delete
  deriving DecidableEq, Repr

/-- The call an `EditOp` stands for. -/
def EditOp.apply : EditOp → GameState → Option GameState
  | .insert ch, s => insertLetter ch s
  | .delete, s => deleteLetter s

/-- A finite sequence of `insertLetter` / `deleteLetter` calls, in order. -/
def runEdits : List EditOp → GameState → Option GameState
  | [], s => some s
  | op :: ops, s => (op.apply s).bind (runEdits ops)

/-! ## The judge's answer (lines 188-206) -/

/-- The value of one field of a JSON object, as far as the script tells values
apart: `missing` is `undefined` (no such field); a number is given by the two
things the script can do with it, the test whether it is zero and its string
conversion `String(n)`; the elements of an array are string tokens (any other
element is, like an unknown string, neither `"correct"` nor `"green"`). -/
inductive Field
  | missing
  | null
  | bool (b : Bool)
  | num (isZero : Bool) (text : String)
  | str (s : String)
  | arr (xs : List String)
  deriving DecidableEq, Repr

/-- JavaScript truthiness: `undefined`, `null`, `false`, `0` and `""` are
falsy, every array is truthy. -/
def Field.truthy : Field → Bool
  | .missing => false
  | .null => false
  | .bool b => b
  | .num isZero _ => !isZero
  | .str s => s != ""
  | .arr _ => true

/-- `a || b`: `a` when it is truthy, else `b`. -/
def Field.or (a b : Field) : Field :=
  if a.truthy then a else b

/-- The number of UTF-16 code units of a string, its JavaScript `length`. -/
def jsLength (s : String) : Nat :=
  s.data.foldl (fun n c => n + (if c.val.toNat < 65536 then 1 else 2)) 0

/-- The `length` property: defined for arrays and strings only. -/
def Field.length? : Field → Option Nat
  | .arr xs => some xs.length
  | .str s => some (jsLength s)
  | _ => none

/-- String conversion of a value (`String(v)`, template literals). -/
def Field.toStr : Field → String
  | .missing => "undefined"
  | .null => "null"
  | .bool b => if b then "true" else "false"
  | .num _ text => text
  | .str s => s
  | .arr xs => ",".intercalate xs

/-- The fields of a response object that the script reads. -/
structure Payload where
  /-- `result` -/
  result : Field := .missing
  /-- `feedback` -/
  feedback : Field := .missing
  /-- `colors` -/
  colors : Field := .missing
  /-- `win` -/
  win : Field := .missing
  /-- `answer` -/
  answer : Field := .missing
  /-- `message` -/
  message : Field := .missing
  deriving DecidableEq, Repr

/-- A parsed JSON body: `null`, another falsy value (`false`, `0`, `""`), or an
object.  A truthy body that is not an object has none of the fields read here
and behaves as the object with every field missing. -/
inductive Body
  | null
  | falsy
  | obj (p : Payload)
  deriving DecidableEq, Repr

/-- What `fetch` gives: a rejection, or a response with its status and its
body (`none` when the body is not JSON, so that `res.json()` rejects). -/
inductive HttpResult
  | networkFailure
  | response (status : Nat) (json : Option Body)
  deriving DecidableEq, Repr

/-- `res.ok`: the status is in the range 200-299. -/
def statusOk (status : Nat) : Bool :=
  decide (200 ≤ status) && decide (status ≤ 299)

/-- `apiCheckGuess(guess)` (lines 188-206), given what the request produced:
the returned JSON, or the message of the error thrown. -/
def apiCheckGuess : HttpResult → Except String Body
  | .networkFailure => .error "TypeError: Failed to fetch"
  | .response status json =>
    if !statusOk status then
      if status = 400 then
        match json with
        | none => .error "SyntaxError: Unexpected token"
        | some .null => .error "TypeError: Cannot read properties of null"
        | some .falsy => .error "无效请求"
        | some (.obj errJson) => .error (errJson.message.or (.str "无效请求")).toStr
      else .error ("API请求失败: " ++ toString status)
    else
      match json with
      | none => .error "SyntaxError: Unexpected token"
      | some body => .ok body

/-! ## Colours (lines 209-263) -/

/-- `mapColorToClass` (lines 212-216). -/
def mapColorToClass (c : String) : LetterState :=
  if c = "green" ∨ c = "correct" then .correct
  else if c = "yellow" ∨ c = "present" then .present
  else .absent

/-- `priority` (line 242). -/
def priority : LetterState → Nat
  | .correct => 3
  | .present => 2
  | .absent => 1

/-- Whether `buildKeyboard` made a button with `data-key` equal to this
character (lines 58-62): the letters `A` to `Z`. -/
def hasKey (letter : Char) : Bool :=
  letter.isUpper

/-- The test of line 246:
`!prevState || priority[state] > (priority[prevState] || 0)`.  A recorded state
is one of the three class names, whose priority is never 0, so the `|| 0` has
no case of its own. -/
def shouldUpdate (prevState : Option LetterState) (state : LetterState) : Bool :=
  match prevState with
  | none => true
  | some prev => decide (priority state > priority prev)

/-- One round of the loop of `updateKeyboardColors` (lines 236-261). -/
def updateKey (letter : Char) (state : LetterState)
    (keyState : Char → Option LetterState) : Char → Option LetterState :=
  if !hasKey letter then keyState
  else if shouldUpdate (keyState letter) state then
    fun k => if k = letter then some state else keyState k
  else keyState

/-- `updateKeyboardColors(guess, cssClasses)` (lines 234-263): position `i` of
the guess is observed with `cssClasses[i]`.  `triggerSubmit` passes five
classes and a guess read off a row of `COLS` slots, so the guess is never
longer than `cssClasses`; the loop is modelled up to the shorter of the two. -/
def updateKeyboardColors :
    List Char → List LetterState → (Char → Option LetterState) → Char → Option LetterState
  | letter :: guess, state :: cssClasses, keyState =>
    updateKeyboardColors guess cssClasses (updateKey letter state keyState)
  | _, _, keyState => keyState

/-- `applyColors(colorArray, guessStr)` (lines 209-232): `none` when
`colorArray.map` is not a function (the value is not an array). -/
def applyColors (colorArray : Field) (guessStr : List Char) (s : GameState) :
    Option GameState :=
  match colorArray with
  | .arr tokens =>
    let cssClasses := tokens.map mapColorToClass
    some { s with keyState := updateKeyboardColors guessStr cssClasses s.keyState }
  | _ => none

/-! ## Submitting a guess (lines 122-185) -/

/-- `boardState[currentRow].join("")`. -/
def joinRow (row : List Slot) : List Char :=
  row.filterMap id

/-- Where a call stands when it gives control back: it has returned, or
`triggerSubmit` is suspended at its `await` with the guess it sent. -/
inductive Step
  | done (s : GameState)
  | awaiting (s : GameState) (currentGuess : List Char)

/-- The state a step leaves. -/
def Step.state : Step → GameState
  | .done s => s
  | .awaiting s _ => s

/-- The guess sent to the judge by a step, if any. -/
def Step.request : Step → Option (List Char)
  | .done _ => none
  | .awaiting _ g => some g

/-- The text shown when a submit finds the row incomplete (line 125). -/
def incompleteMessage : String := "请填满 5 个字母后再提交"

/-- The text shown while the judge is asked (line 134). -/
def checkingMessage : String := "校验中..."

/-- `triggerSubmit()` up to the `await` of line 138 (lines 122-138). -/
def triggerSubmitStart (s : GameState) : Option Step :=
  if s.currentCol ≠ COLS then
    some (.done (showMessage s incompleteMessage))
  else
    match s.boardState[s.currentRow]? with
    | none => none
    | some row =>
      let currentGuess := joinRow row
      some (.awaiting (showMessage { s with isSubmitting := true } checkingMessage) currentGuess)

/-- The text shown on a win (line 162). -/
def winMessage : String := "🎉 猜对了！你赢了！"

/-- The text shown by the `catch` branch (line 180). -/
def errorMessage : String := "网络错误或单词不在词库中"

/-- `resultData.result || resultData.feedback || resultData.colors` (line 150). -/
def feedbackOf (resultData : Payload) : Field :=
  (resultData.result.or resultData.feedback).or resultData.colors

/-- The text shown on a loss (lines 171-172), with
`answer = resultData.answer || "（去问后端）"`. -/
def lossMessage (resultData : Payload) : String :=
  "游戏结束，答案是：" ++ (resultData.answer.or (.str "（去问后端）")).toStr

/-- `colors.every(c => c === "correct" || c === "green")` (line 159). -/
def everyCorrect : Field → Bool
  | .arr tokens => tokens.all (fun c => decide (c = "correct") || decide (c = "green"))
  | _ => false

/-- `resultData.win || colors.every(...)` (line 159), as a truth value. -/
def isWin (resultData : Payload) (colors : Field) : Bool :=
  resultData.win.truthy || everyCorrect colors

/-- The text shown when the game goes on to the next row (line 174). -/
def nextRowMessage : String := "继续加油！"

/-- The `try` block of `triggerSubmit` from the point where the judge has
answered (lines 138-176).  `confetti` says whether `startConfetti`, which this
file calls and does not define, exists and returns; when it does not, the call
throws.  An error carries the thrown message and the state at the throw. -/
def tryBlock (confetti : Bool) (res : HttpResult) (currentGuess : List Char)
    (s : GameState) : Except (String × GameState) GameState :=
  match apiCheckGuess res with
  | .error e => .error (e, s)
  | .ok .null => .error ("API 返回为空", s)
  | .ok .falsy => .error ("API 返回为空", s)
  | .ok (.obj resultData) =>
    let colors := feedbackOf resultData
    if !colors.truthy || colors.length? != some 5 then
      .error ("后端返回的数据格式不对", s)
    else
      match applyColors colors currentGuess s with
      | none => .error ("TypeError: colorArray.map is not a function", s)
      | some s1 =>
        if isWin resultData colors then
          let s2 := { showMessage s1 winMessage with isGameOver := true }
          if confetti then .ok s2
          else .error ("ReferenceError: startConfetti is not defined", s2)
        else
          let s2 := { s1 with currentRow := s1.currentRow + 1, currentCol := 0 }
          if s2.currentRow ≥ ROWS then
            .ok (showMessage { s2 with isGameOver := true } (lossMessage resultData))
          else
            .ok (showMessage s2 nextRowMessage)

/-- `triggerSubmit()` from the `await` on (lines 138-184): the `try` block,
the `catch` branch and the `finally` branch. -/
def triggerSubmitResume (confetti : Bool) (res : HttpResult) (currentGuess : List Char)
    (s : GameState) : GameState :=
  let s1 :=
    match tryBlock confetti res currentGuess s with
    | .ok s1 => s1
    | .error (err, s1) => showMessage (consoleError s1 err) errorMessage
  { s1 with isSubmitting := false }

/-- A whole run of `triggerSubmit()` against a judge, with nothing else
happening while it waits. -/
def triggerSubmit (confetti : Bool) (judge : List Char → HttpResult) (s : GameState) :
    Option GameState :=
  match triggerSubmitStart s with
  | none => none
  | some (.done s1) => some s1
  | some (.awaiting s1 currentGuess) =>
    some (triggerSubmitResume confetti (judge currentGuess) currentGuess s1)

/-! ## Keys (lines 91-101) -/

/-- `/^[a-zA-Z]$/.test(key)` (line 94). -/
def isLetterKey (key : String) : Bool :=
  match key.data with
  | [c] => c.isAlpha
  | _ => false

/-- `key.toUpperCase()` for a key that passed the test of line 94. -/
def upperOf (key : String) : Char :=
  (key.data.headD 'A').toUpper

/-- `handleKey(key)` (lines 91-101). -/
def handleKey (key : String) (s : GameState) : Option Step :=
  if s.isGameOver || s.isSubmitting then some (.done s)
  else if isLetterKey key then (insertLetter (upperOf key) s).map Step.done
  else if key = "Del" then (deleteLetter s).map Step.done
  else if key = "Enter" then triggerSubmitStart s
  else some (.done s)

/-! ## Predicates of the statements -/

/-- The non-empty slots of the row are exactly its first `col` slots. -/
def PrefixFilled (row : List Slot) (col : Nat) : Prop :=
  ∀ i, i < row.length → ((row.getD i none).isSome = true ↔ i < col)

/-- The cursor invariant: the current row exists and has `COLS` slots,
`currentCol` is at most `COLS`, and the non-empty slots of the current row are
exactly its first `currentCol` slots. -/
def CursorInv (s : GameState) : Prop :=
  ∃ row, currentRowSlots s = some row ∧ row.length = COLS ∧ s.currentCol ≤ COLS ∧
    PrefixFilled row s.currentCol

/-- A run of `updateKeyboardColors` for each judged guess, in order. -/
def observeGuesses (guesses : List (List Char × List LetterState))
    (keyState : Char → Option LetterState) : Char → Option LetterState :=
  guesses.foldl (fun ks g => updateKeyboardColors g.1 g.2 ks) keyState

/-- The ways a submission fails before anything is applied: the judge call
throws (network failure, non-success status, body that is not JSON), the body
is empty, none of `result` / `feedback` / `colors` is present, or the feedback
does not have length 5. -/
def SubmitFailed (res : HttpResult) : Prop :=
  (∃ e, apiCheckGuess res = .error e) ∨
  apiCheckGuess res = .ok .null ∨
  apiCheckGuess res = .ok .falsy ∨
  ∃ p, apiCheckGuess res = .ok (.obj p) ∧
    ((p.result = .missing ∧ p.feedback = .missing ∧ p.colors = .missing) ∨
      (feedbackOf p).length? ≠ some 5)

/-- The initial state after the keys `C`, `R`, `A`, `N`, `E`: the first row is
full. -/
def craneState : GameState :=
  { initialState with
    boardState := [some 'C', some 'R', some 'A', some 'N', some 'E'] ::
      List.replicate 5 (List.replicate COLS none)
    currentCol := 5 }

/-- A state on the sixth row, which is full (`STONE`); the first five rows hold
`CRANE`. -/
def lastRowState : GameState :=
  { initialState with
    boardState := List.replicate 5 [some 'C', some 'R', some 'A', some 'N', some 'E'] ++
      [[some 'S', some 'T', some 'O', some 'N', some 'E']]
    currentRow := 5
    currentCol := 5 }

/-- A judge that rejects every guess: status 400 with the message
`"word not found"`. -/
def rejectingJudge : List Char → HttpResult :=
  fun _ => .response 400 (some (.obj { message := .str "word not found" }))

/-- A judge that answers five `"correct"` tokens together with `win: false`. -/
def allCorrectNoWinJudge : List Char → HttpResult :=
  fun _ => .response 200 (some (.obj
    { result := .arr ["correct", "correct", "correct", "correct", "correct"]
      win := .bool false }))

/-- A judge whose connection fails. -/
def offlineJudge : List Char → HttpResult :=
  fun _ => .networkFailure

/-- The state in which `triggerSubmit` waits for the judge after `Enter` on
`craneState`. -/
def inFlightState : GameState :=
  showMessage { craneState with isSubmitting := true } checkingMessage

/-- The initial state after the keys `C`, `R`: the first row is incomplete. -/
def partialState : GameState :=
  { initialState with
    boardState := [some 'C', some 'R', none, none, none] ::
      List.replicate 5 (List.replicate COLS none)
    currentCol := 2 }

/-- A judge that answers five `"correct"` tokens and no win flag. -/
def allCorrectJudge : List Char → HttpResult :=
  fun _ => .response 200 (some (.obj
    { result := .arr ["correct", "correct", "correct", "correct", "correct"] }))

/-- A judge that answers `green, gray, yellow, green, green` under `feedback`,
no win flag and the answer `STOVE`. -/
def mixedJudge : List Char → HttpResult :=
  fun _ => .response 200 (some (.obj
    { feedback := .arr ["green", "gray", "yellow", "green", "green"]
      answer := .str "STOVE" }))

/-- A judge that answers status 500 with a body that is not JSON. -/
def failingJudge : List Char → HttpResult :=
  fun _ => .response 500 none

/-- A judge that answers `green, gray, yellow, green, green` under `feedback`
with `win: false`. -/
def mixedNoWinJudge : List Char → HttpResult :=
  fun _ => .response 200 (some (.obj
    { feedback := .arr ["green", "gray", "yellow", "green", "green"]
      win := .bool false }))

/-- The states observed for one letter by `updateKeyboardColors(guess,
cssClasses)`: `cssClasses[i]` for the positions `i` with `guess[i]` that
letter, in order. -/
def observedFor (letter : Char) : List Char → List LetterState → List LetterState
  | l :: guess, state :: cssClasses =>
    if l = letter then state :: observedFor letter guess cssClasses
    else observedFor letter guess cssClasses
  | _, _ => []

/-- The choice of line 246 as a function of the recorded state: the state kept
after observing `state`. -/
def keepBest (prevState : Option LetterState) (state : LetterState) : Option LetterState :=
  if shouldUpdate prevState state then some state else prevState

/-! ## Sessions: keys and judge responses -/

/-- A session: the state of the page and, while a `triggerSubmit` call waits at
its `await`, the guess that call has captured. -/
structure Session where
  /-- the state of the page -/
  state : GameState
  /-- `currentGuess` of the suspended `triggerSubmit`, if one is waiting -/
  pending : Option (List Char)

/-- What can happen to the page: `handleKey(k)` is called (by a key button or by
the `keydown` listener), or the outstanding request to the judge settles. -/
inductive Event
  | key (k : String)
  | judgeResponds (res : HttpResult)

/-- The session when `init` has run. -/
def initialSession : Session :=
  { state := initialState, pending := none }

/-- One event.  `none` is an uncaught `TypeError`.  A response with no request
outstanding does not occur and is ignored.  `confetti` is as in `tryBlock`. -/
def Session.step (confetti : Bool) (ev : Event) (σ : Session) : Option Session :=
  match ev with
  | .key k =>
    match handleKey k σ.state with
    | none => none
    | some (.done s) => some { σ with state := s }
    | some (.awaiting s currentGuess) => some { state := s, pending := some currentGuess }
  | .judgeResponds res =>
    match σ.pending with
    | none => some σ
    | some currentGuess =>
      some { state := triggerSubmitResume confetti res currentGuess σ.state, pending := none }

/-- A finite sequence of events, in order. -/
def runEvents (confetti : Bool) : List Event → Session → Option Session
  | [], σ => some σ
  | ev :: evs, σ => (σ.step confetti ev).bind (runEvents confetti evs)

/-- The sessions reachable from the initial one by `handleKey` calls and judge
responses. -/
inductive Reachable (confetti : Bool) : Session → Prop
  | init : Reachable confetti initialSession
  | next {σ σ' : Session} (ev : Event) (before : Reachable confetti σ)
      (h : σ.step confetti ev = some σ') : Reachable confetti σ'

/-- The shape of the state that every event keeps: the board has `ROWS` rows of
`COLS` slots; `currentRow < ROWS` unless the game is over; the rows after
`currentRow` are empty; the non-empty slots of the current row are its first
`currentCol` slots; every letter on the board is one of `A`-`Z`. -/
structure StateInv (s : GameState) : Prop where
  /-- the board has `ROWS` rows -/
  rows : s.boardState.length = ROWS
  /-- every row has `COLS` slots -/
  cols : ∀ row ∈ s.boardState, row.length = COLS
  /-- `currentRow < ROWS` unless the game is over -/
  bound : s.isGameOver = false → s.currentRow < ROWS
  /-- the rows after `currentRow` are empty -/
  later : ∀ (r : Nat) (row : List Slot), s.currentRow < r → s.boardState[r]? = some row →
    ∀ x ∈ row, x = none
  /-- the cursor is right behind the letters of the current row -/
  cursor : ∀ row, currentRowSlots s = some row →
    s.currentCol ≤ COLS ∧ PrefixFilled row s.currentCol
  /-- every letter on the board is upper case -/
  upper : ∀ row ∈ s.boardState, ∀ c : Char, some c ∈ row → c.isUpper = true

/-- The session after the keys `C`, `R`, `A`, `N`, `E`. -/
def craneSession : Session :=
  { state := craneState, pending := none }

/-- The state after `Enter` on `craneState` was answered five `"correct"`
tokens (and `startConfetti` returned): the game is won. -/
def wonState : GameState :=
  triggerSubmitResume true (allCorrectJudge ['C', 'R', 'A', 'N', 'E'])
    ['C', 'R', 'A', 'N', 'E'] inFlightState

/-- The lookup as the specification words it: the value of the first of
`result`, `feedback`, `colors` that is present in the payload, a field being
present when it is not `undefined`. -/
def specFirstPresent (p : Payload) : Field :=
  if p.result ≠ .missing then p.result
  else if p.feedback ≠ .missing then p.feedback
  else p.colors

/-- A payload in which `result` is present with the value `false` and
`feedback` holds five tokens. -/
def falseResultPayload : Payload :=
  { result := .bool false, feedback := .arr ["green", "gray", "yellow", "green", "green"] }

/-- A judge that answers `falseResultPayload`. -/
def falseResultJudge : List Char → HttpResult :=
  fun _ => .response 200 (some (.obj falseResultPayload))

/-- What the lock keeps in every reachable session: a suspended `triggerSubmit`
means `isSubmitting` is true and the game is not over; while `isSubmitting` is
true the current row is full; and a finished game whose `currentRow` is still
below `ROWS` (a win) has its current row full. -/
structure LockInv (σ : Session) : Prop where
  /-- a suspended call holds the lock, and the game is not over -/
  pend : σ.pending.isSome = true → σ.state.isSubmitting = true ∧ σ.state.isGameOver = false
  /-- a submission in flight has a full row -/
  flight : σ.state.isSubmitting = true → σ.state.currentCol = COLS
  /-- a won game has a full row -/
  won : σ.state.isGameOver = true → σ.state.currentRow < ROWS → σ.state.currentCol = COLS

/-- The session while the judge is asked about `CRANE`. -/
def inFlightSession : Session :=
  { state := inFlightState, pending := some ['C', 'R', 'A', 'N', 'E'] }

/-- The session after `CRANE` was answered `green, gray, yellow, green, green`
with `win: false`: the first row is finalized, `currentRow` is 1. -/
def secondRowSession : Session :=
  { state := triggerSubmitResume true (mixedNoWinJudge ['C', 'R', 'A', 'N', 'E'])
      ['C', 'R', 'A', 'N', 'E'] inFlightState
    pending := none }

/-- The state after the sixth row `STONE` of `lastRowState` was answered
`green, gray, yellow, green, green`: the game is lost, `currentRow` is `ROWS`. -/
def lostState : GameState :=
  triggerSubmitResume true (mixedJudge ['S', 'T', 'O', 'N', 'E']) ['S', 'T', 'O', 'N', 'E']
    (showMessage { lastRowState with isSubmitting := true } checkingMessage)

/-! ## Editing: the cursor invariant -/

theorem filledCount_of_prefixFilled (row : List Slot) :
    ∀ col, col ≤ row.length → PrefixFilled row col → filledCount row = col := by
  induction row with
  | nil =>
    intro col h _
    have : col = 0 := by simpa using h
    simp [filledCount, this]
  | cons x xs ih =>
    intro col hcol hp
    cases col with
    | zero =>
      have hx : x.isSome = false := by
        have := hp 0 (by simp)
        simpa using this
      have hxs : PrefixFilled xs 0 := by
        intro i hi
        have := hp (i + 1) (by simpa using hi)
        simpa using this
      have := ih 0 (Nat.zero_le _) hxs
      simp [filledCount, List.countP_cons, hx] at this ⊢
      exact this
    | succ k =>
      have hx : x.isSome = true := by
        have := hp 0 (by simp)
        simpa using this
      have hxs : PrefixFilled xs k := by
        intro i hi
        have := hp (i + 1) (by simpa using hi)
        simpa using this
      have := ih k (by simpa using hcol) hxs
      simp [filledCount, List.countP_cons, hx] at this ⊢
      exact this

theorem getElem?_set_self_of_some {α : Type} (l : List α) (i : Nat) (a b : α)
    (h : l[i]? = some a) : (l.set i b)[i]? = some b := by
  have hi : i < l.length := by
    rcases Nat.lt_or_ge i l.length with hlt | hge
    · exact hlt
    · rw [List.getElem?_eq_none hge] at h; cases h
  simp [List.getElem?_set, hi]

theorem insertLetter_cursorInv (ch : Char) (s : GameState) (h : CursorInv s) :
    ∃ s', insertLetter ch s = some s' ∧ s'.currentRow = s.currentRow ∧ CursorInv s' := by
  obtain ⟨row, hrow, hlen, hcol, hp⟩ := h
  have hrow' : s.boardState[s.currentRow]? = some row := hrow
  by_cases hc : s.currentCol ≥ COLS
  · exact ⟨s, by simp [insertLetter, hc], rfl, row, hrow, hlen, hcol, hp⟩
  · have hlt : s.currentCol < COLS := Nat.lt_of_not_ge hc
    refine ⟨{ s with
        boardState := s.boardState.set s.currentRow (row.set s.currentCol (some ch))
        currentCol := s.currentCol + 1 }, by simp [insertLetter, hc, hrow'], rfl,
      row.set s.currentCol (some ch), ?_, ?_, ?_, ?_⟩
    · exact getElem?_set_self_of_some _ _ _ _ hrow'
    · simpa using hlen
    · exact hlt
    · intro i hi
      have hi' : i < row.length := by simpa using hi
      have := hp i hi'
      show Option.isSome ((row.set s.currentCol (some ch)).getD i none) = true ↔
        i < s.currentCol + 1
      by_cases hic : s.currentCol = i
      · subst hic
        simp [List.getD_eq_getElem?_getD, List.getElem?_set, hi']
      · simp only [List.getD_eq_getElem?_getD, List.getElem?_set, hic, if_false] at this ⊢
        rw [this]
        omega

theorem deleteLetter_cursorInv (s : GameState) (h : CursorInv s) :
    ∃ s', deleteLetter s = some s' ∧ s'.currentRow = s.currentRow ∧ CursorInv s' := by
  obtain ⟨row, hrow, hlen, hcol, hp⟩ := h
  have hrow' : s.boardState[s.currentRow]? = some row := hrow
  by_cases hc : s.currentCol ≤ 0
  · exact ⟨s, by simp [deleteLetter, hc], rfl, row, hrow, hlen, hcol, hp⟩
  · have hpos : 0 < s.currentCol := Nat.lt_of_not_ge hc
    refine ⟨{ s with
        boardState := s.boardState.set s.currentRow (row.set (s.currentCol - 1) none)
        currentCol := s.currentCol - 1 }, by simp [deleteLetter, hc, hrow'], rfl,
      row.set (s.currentCol - 1) none, ?_, ?_, ?_, ?_⟩
    · exact getElem?_set_self_of_some _ _ _ _ hrow'
    · simpa using hlen
    · show s.currentCol - 1 ≤ COLS
      omega
    · intro i hi
      have hi' : i < row.length := by simpa using hi
      have := hp i hi'
      show Option.isSome ((row.set (s.currentCol - 1) none).getD i none) = true ↔
        i < s.currentCol - 1
      by_cases hic : s.currentCol - 1 = i
      · subst hic
        simp [List.getD_eq_getElem?_getD, List.getElem?_set, hi']
      · simp only [List.getD_eq_getElem?_getD, List.getElem?_set, hic, if_false] at this ⊢
        rw [this]
        omega

theorem runEdits_cursorInv (ops : List EditOp) :
    ∀ s, CursorInv s →
      ∃ s', runEdits ops s = some s' ∧ s'.currentRow = s.currentRow ∧ CursorInv s' := by
  induction ops with
  | nil => intro s h; exact ⟨s, rfl, rfl, h⟩
  | cons op ops ih =>
    intro s h
    have hstep : ∃ s1, op.apply s = some s1 ∧ s1.currentRow = s.currentRow ∧ CursorInv s1 := by
      cases op with
      | insert ch => exact insertLetter_cursorInv ch s h
      | delete => exact deleteLetter_cursorInv s h
    obtain ⟨s1, h1, hr1, hinv1⟩ := hstep
    obtain ⟨s2, h2, hr2, hinv2⟩ := ih s1 hinv1
    exact ⟨s2, by simp [runEdits, h1, h2], hr2.trans hr1, hinv2⟩

theorem initialState_cursorInv : CursorInv initialState :=
  ⟨List.replicate COLS none, by decide, by decide, by decide, by
    intro i hi
    show Option.isSome ((List.replicate COLS none).getD i none) = true ↔ i < 0
    have hi' : i < COLS := by simpa using hi
    simp [List.getD_eq_getElem?_getD, List.getElem?_replicate, hi']⟩

theorem runEdits_cursor_invariant (s : GameState) (ops : List EditOp) (row : List Slot)
    (hrow : currentRowSlots s = some row) (hlen : row.length = COLS)
    (hcol : s.currentCol ≤ COLS) (hfill : PrefixFilled row s.currentCol) :
    ∃ s' row', runEdits ops s = some s' ∧ s'.currentRow = s.currentRow ∧
      currentRowSlots s' = some row' ∧ row'.length = COLS ∧ s'.currentCol ≤ COLS ∧
      s'.currentCol = filledCount row' ∧ PrefixFilled row' s'.currentCol := by
  obtain ⟨s', hrun, hr, row', hrow', hlen', hcol', hfill'⟩ :=
    runEdits_cursorInv ops s ⟨row, hrow, hlen, hcol, hfill⟩
  exact ⟨s', row', hrun, hr, hrow', hlen', hcol',
    (filledCount_of_prefixFilled row' _ (by rw [hlen']; exact hcol') hfill').symm, hfill'⟩

/-! ## The keyboard never downgrades a letter -/

theorem priority_le_three (state : LetterState) : priority state ≤ 3 := by
  cases state <;> decide

theorem updateKey_eq_of_priority_le (letter : Char) (state prev : LetterState)
    (keyState : Char → Option LetterState) (h : keyState letter = some prev)
    (hle : priority state ≤ priority prev) : updateKey letter state keyState = keyState := by
  unfold updateKey
  split
  · rfl
  · have : shouldUpdate (keyState letter) state = false := by
      simp [shouldUpdate, h, Nat.not_lt.mpr hle]
    simp [this]

theorem updateKey_mono (letter : Char) (state : LetterState)
    (keyState : Char → Option LetterState) (k : Char) (prev : LetterState)
    (h : keyState k = some prev) :
    ∃ now, updateKey letter state keyState k = some now ∧ priority prev ≤ priority now := by
  unfold updateKey
  split
  · exact ⟨prev, h, Nat.le_refl _⟩
  · split
    · rename_i hup
      by_cases hk : k = letter
      · subst hk
        refine ⟨state, by simp, ?_⟩
        simp [shouldUpdate, h] at hup
        exact Nat.le_of_lt hup
      · exact ⟨prev, by simp [hk, h], Nat.le_refl _⟩
    · exact ⟨prev, h, Nat.le_refl _⟩

theorem updateKeyboardColors_mono (guess : List Char) :
    ∀ (cssClasses : List LetterState) (keyState : Char → Option LetterState) (k : Char)
      (prev : LetterState), keyState k = some prev →
      ∃ now, updateKeyboardColors guess cssClasses keyState k = some now ∧
        priority prev ≤ priority now := by
  induction guess with
  | nil => intro cssClasses keyState k prev h; exact ⟨prev, by simpa [updateKeyboardColors] using h, Nat.le_refl _⟩
  | cons letter guess ih =>
    intro cssClasses keyState k prev h
    cases cssClasses with
    | nil => exact ⟨prev, by simpa [updateKeyboardColors] using h, Nat.le_refl _⟩
    | cons state cssClasses =>
      obtain ⟨mid, hmid, hle⟩ := updateKey_mono letter state keyState k prev h
      obtain ⟨now, hnow, hle'⟩ := ih cssClasses (updateKey letter state keyState) k mid hmid
      exact ⟨now, by simpa [updateKeyboardColors] using hnow, Nat.le_trans hle hle'⟩

theorem observeGuesses_mono (guesses : List (List Char × List LetterState)) :
    ∀ (keyState : Char → Option LetterState) (k : Char) (prev : LetterState),
      keyState k = some prev →
      ∃ now, observeGuesses guesses keyState k = some now ∧ priority prev ≤ priority now := by
  induction guesses with
  | nil => intro keyState k prev h; exact ⟨prev, by simpa [observeGuesses] using h, Nat.le_refl _⟩
  | cons g guesses ih =>
    intro keyState k prev h
    obtain ⟨mid, hmid, hle⟩ := updateKeyboardColors_mono g.1 g.2 keyState k prev h
    obtain ⟨now, hnow, hle'⟩ := ih _ k mid hmid
    exact ⟨now, by simpa [observeGuesses] using hnow, Nat.le_trans hle hle'⟩

/-- C2: for every keyboard state, letter with a recorded state `prev` and
sequence of judged guesses applied with `updateKeyboardColors`: an observation
of lower or equal priority leaves the keyboard state as it is; after the whole
sequence the letter has a recorded state of priority at least that of `prev`;
and if `prev` is `correct` the letter is still `correct`. -/
theorem C2_keyboard_never_downgrades (keyState : Char → Option LetterState)
    (guesses : List (List Char × List LetterState)) (letter : Char) (prev : LetterState)
    (h : keyState letter = some prev) :
    (∀ state, priority state ≤ priority prev → updateKey letter state keyState = keyState) ∧
    (∃ now, observeGuesses guesses keyState letter = some now ∧
      priority prev ≤ priority now) ∧
    (prev = .correct → observeGuesses guesses keyState letter = some .correct) := by
  refine ⟨fun state hle => updateKey_eq_of_priority_le letter state prev keyState h hle,
    observeGuesses_mono guesses keyState letter prev h, ?_⟩
  intro hprev
  obtain ⟨now, hnow, hle⟩ := observeGuesses_mono guesses keyState letter prev h
  rw [hnow]
  subst hprev
  cases now with
  | correct => rfl
  | present => exact absurd hle (by decide)
  | absent => exact absurd hle (by decide)

/-- C2 (witness): observing `A` as absent, present, correct and then absent
leaves `A` correct; the last observation is the theorem applied to the keyboard
state after the first three. -/
theorem C2_keyboard_never_downgrades_witness :
    observeGuesses [(['A'], [.absent]), (['A'], [.present]), (['A'], [.correct]),
        (['A'], [.absent])] (fun _ => none) 'A' = some .correct ∧
    observeGuesses [(['A'], [.absent])]
        (observeGuesses [(['A'], [.absent]), (['A'], [.present]), (['A'], [.correct])]
          (fun _ => none)) 'A' = some .correct :=
  ⟨by decide,
   (C2_keyboard_never_downgrades
      (observeGuesses [(['A'], [.absent]), (['A'], [.present]), (['A'], [.correct])]
        (fun _ => none))
      [(['A'], [.absent])] 'A' .correct (by decide)).2.2 rfl⟩

/-! ## Submitting: the failure paths -/

theorem triggerSubmitResume_of_error (confetti : Bool) (res : HttpResult)
    (currentGuess : List Char) (s : GameState) (e : String)
    (h : tryBlock confetti res currentGuess s = .error (e, s)) :
    triggerSubmitResume confetti res currentGuess s =
      { showMessage (consoleError s e) errorMessage with isSubmitting := false } := by
  simp [triggerSubmitResume, h]

theorem tryBlock_of_submitFailed (confetti : Bool) (res : HttpResult)
    (currentGuess : List Char) (s : GameState) (h : SubmitFailed res) :
    ∃ e, tryBlock confetti res currentGuess s = .error (e, s) := by
  rcases h with ⟨e, he⟩ | he | he | ⟨p, he, hp⟩
  · exact ⟨e, by simp [tryBlock, he]⟩
  · exact ⟨"API 返回为空", by simp [tryBlock, he]⟩
  · exact ⟨"API 返回为空", by simp [tryBlock, he]⟩
  · rcases hp with ⟨h1, h2, h3⟩ | hlen
    · exact ⟨"后端返回的数据格式不对",
        by simp [tryBlock, he, feedbackOf, h1, h2, h3, Field.or, Field.truthy]⟩
    · exact ⟨"后端返回的数据格式不对", by simp [tryBlock, he, hlen]⟩

theorem triggerSubmit_of_full (confetti : Bool) (judge : List Char → HttpResult)
    (s : GameState) (row : List Slot) (hcol : s.currentCol = COLS)
    (hrow : currentRowSlots s = some row) :
    triggerSubmit confetti judge s =
      some (triggerSubmitResume confetti (judge (joinRow row)) (joinRow row)
        (showMessage { s with isSubmitting := true } checkingMessage)) := by
  have hrow' : s.boardState[s.currentRow]? = some row := hrow
  simp [triggerSubmit, triggerSubmitStart, hcol, hrow']

theorem apiCheckGuess_400 (json : Option Body) :
    ∃ e, apiCheckGuess (.response 400 json) = .error e := by
  rcases json with _ | b
  · exact ⟨_, rfl⟩
  · cases b with
    | null => exact ⟨_, rfl⟩
    | falsy => exact ⟨_, rfl⟩
    | obj p => exact ⟨_, rfl⟩

theorem apiCheckGuess_400_message (p : Payload) (m : String) (hm : p.message = .str m)
    (hne : m ≠ "") : apiCheckGuess (.response 400 (some (.obj p))) = .error m := by
  have h : apiCheckGuess (.response 400 (some (.obj p))) =
      .error (p.message.or (.str "无效请求")).toStr := rfl
  rw [h, hm]
  simp [Field.or, Field.truthy, Field.toStr, hne]

theorem triggerSubmit_of_thrown (confetti : Bool) (judge : List Char → HttpResult)
    (s : GameState) (row : List Slot) (e : String) (hcol : s.currentCol = COLS)
    (hrow : currentRowSlots s = some row)
    (hthrow : apiCheckGuess (judge (joinRow row)) = .error e) :
    triggerSubmit confetti judge s =
      some { showMessage (consoleError
          (showMessage { s with isSubmitting := true } checkingMessage) e) errorMessage with
        isSubmitting := false } := by
  rw [triggerSubmit_of_full confetti judge s row hcol hrow]
  rw [triggerSubmitResume_of_error _ _ _ _ e (by simp [tryBlock, hthrow])]

/-- C3 (counterexample): with the first row full (`CRANE`) and a judge that
answers status 400 with the message `"word not found"`, the text on display
after the submit is the fixed text of the `catch` branch, not the judge's
message; the judge's message is only passed to `console.error`. -/
theorem C3_rejection_message_not_surfaced :
    ∃ s', triggerSubmit true rejectingJudge craneState = some s' ∧
      displayed s' = some "网络错误或单词不在词库中" ∧
      displayed s' ≠ some "word not found" ∧
      "word not found" ∉ s'.messages ∧
      s'.errorLog = ["word not found"] :=
  ⟨_, rfl, by decide, by decide, by decide, by decide⟩

/-- C3 (amended): after a status-400 response to the submit of a full row, the
board (so the letters of the current row), `currentRow`, `currentCol`,
`isGameOver` and the keyboard state are unchanged and `isSubmitting` is false
again; the text on display is the fixed text of the `catch` branch; a non-empty
message string carried by the response is appended to the `console.error` log
and is not passed to `showMessage`. -/
theorem C3_rejection_keeps_row (confetti : Bool) (judge : List Char → HttpResult)
    (s : GameState) (row : List Slot) (json : Option Body)
    (hcol : s.currentCol = COLS) (hrow : currentRowSlots s = some row)
    (hrej : judge (joinRow row) = .response 400 json) :
    ∃ s', triggerSubmit confetti judge s = some s' ∧
      s'.boardState = s.boardState ∧ currentRowSlots s' = some row ∧
      s'.currentRow = s.currentRow ∧ s'.currentCol = s.currentCol ∧
      s'.isGameOver = s.isGameOver ∧ s'.keyState = s.keyState ∧
      s'.isSubmitting = false ∧
      s'.messages = s.messages ++ [checkingMessage, errorMessage] ∧
      displayed s' = some errorMessage ∧
      (∀ p m, json = some (.obj p) → p.message = .str m → m ≠ "" →
        s'.errorLog = s.errorLog ++ [m]) := by
  obtain ⟨e, he⟩ := apiCheckGuess_400 json
  rw [← hrej] at he
  refine ⟨_, triggerSubmit_of_thrown confetti judge s row e hcol hrow he,
    rfl, hrow, rfl, rfl, rfl, rfl, rfl, ?_, ?_, ?_⟩
  · simp [showMessage, consoleError]
  · simp [displayed, showMessage, consoleError]
  · intro p m hj hm hne
    subst hj
    have := apiCheckGuess_400_message p m hm hne
    rw [← hrej, he] at this
    have hem : e = m := by simpa using this
    simp [showMessage, consoleError, hem]

/-- C3 (witness): the amended statement for the first row `CRANE` and the judge
that rejects with `"word not found"`. -/
theorem C3_rejection_keeps_row_witness :
    ∃ s', triggerSubmit true rejectingJudge craneState = some s' ∧
      s'.boardState = craneState.boardState ∧
      currentRowSlots s' = some [some 'C', some 'R', some 'A', some 'N', some 'E'] ∧
      s'.currentRow = craneState.currentRow ∧ s'.currentCol = craneState.currentCol ∧
      s'.isGameOver = craneState.isGameOver ∧ s'.keyState = craneState.keyState ∧
      s'.isSubmitting = false ∧
      s'.messages = craneState.messages ++ [checkingMessage, errorMessage] ∧
      displayed s' = some errorMessage ∧
      (∀ p m, some (Body.obj { message := .str "word not found" }) = some (.obj p) →
        p.message = .str m → m ≠ "" → s'.errorLog = craneState.errorLog ++ [m]) :=
  C3_rejection_keeps_row true rejectingJudge craneState
    [some 'C', some 'R', some 'A', some 'N', some 'E']
    (some (.obj { message := .str "word not found" })) rfl rfl rfl

/-! ## Submitting: an accepted response -/

theorem triggerSubmitResume_win (confetti : Bool) (res : HttpResult)
    (currentGuess : List Char) (s : GameState) (p : Payload) (tokens : List String)
    (hok : apiCheckGuess res = .ok (.obj p)) (hf : feedbackOf p = .arr tokens)
    (hlen : tokens.length = 5) (hwin : isWin p (.arr tokens) = true) :
    triggerSubmitResume confetti res currentGuess s =
      { s with
        keyState := updateKeyboardColors currentGuess (tokens.map mapColorToClass) s.keyState
        isGameOver := true
        isSubmitting := false
        messages := s.messages ++ winMessage :: (if confetti then [] else [errorMessage])
        errorLog := s.errorLog ++
          (if confetti then [] else ["ReferenceError: startConfetti is not defined"]) } := by
  cases confetti <;>
    simp [triggerSubmitResume, tryBlock, hok, hf, hlen, hwin, Field.truthy, Field.length?,
      applyColors, showMessage, consoleError]

theorem triggerSubmitResume_not_win (confetti : Bool) (res : HttpResult)
    (currentGuess : List Char) (s : GameState) (p : Payload) (tokens : List String)
    (hok : apiCheckGuess res = .ok (.obj p)) (hf : feedbackOf p = .arr tokens)
    (hlen : tokens.length = 5) (hwin : isWin p (.arr tokens) = false) :
    triggerSubmitResume confetti res currentGuess s =
      { s with
        keyState := updateKeyboardColors currentGuess (tokens.map mapColorToClass) s.keyState
        currentRow := s.currentRow + 1
        currentCol := 0
        isGameOver := if s.currentRow + 1 ≥ ROWS then true else s.isGameOver
        isSubmitting := false
        messages := s.messages ++
          [if s.currentRow + 1 ≥ ROWS then lossMessage p else nextRowMessage] } := by
  by_cases hlast : s.currentRow + 1 ≥ ROWS <;>
    simp [triggerSubmitResume, tryBlock, hok, hf, hlen, hwin, Field.truthy, Field.length?,
      applyColors, showMessage, hlast]

theorem triggerSubmit_won_iff_isWin (confetti : Bool) (judge : List Char → HttpResult)
    (s : GameState) (row : List Slot) (p : Payload) (tokens : List String)
    (hcol : s.currentCol = COLS) (hrow : currentRowSlots s = some row)
    (hok : apiCheckGuess (judge (joinRow row)) = .ok (.obj p))
    (hf : feedbackOf p = .arr tokens) (hlen : tokens.length = 5) :
    ∃ s', triggerSubmit confetti judge s = some s' ∧
      ((s'.isGameOver = true ∧ s'.currentRow = s.currentRow) ↔
        (p.win.truthy = true ∨
          tokens.all (fun c => decide (c = "correct") || decide (c = "green")) = true)) := by
  have heq := triggerSubmit_of_full confetti judge s row hcol hrow
  cases hwin : isWin p (.arr tokens) with
  | true =>
    rw [triggerSubmitResume_win confetti _ _ _ p tokens hok hf hlen hwin] at heq
    refine ⟨_, heq, fun _ => ?_, fun _ => ⟨rfl, rfl⟩⟩
    simpa [isWin, everyCorrect] using hwin
  | false =>
    rw [triggerSubmitResume_not_win confetti _ _ _ p tokens hok hf hlen hwin] at heq
    refine ⟨_, heq, fun h => ?_, fun h => ?_⟩
    · have h2 : s.currentRow + 1 = s.currentRow := h.2
      omega
    · have : isWin p (.arr tokens) = true := by
        simpa [isWin, everyCorrect] using h
      rw [hwin] at this
      cases this

/-- C4 (the code at the failing input): with the first row full and a judge
that answers five `"correct"` tokens together with `win: false`, the submit
ends the session as won: `isGameOver` is set, the row is not advanced and the
win text is on display. -/
theorem C4_win_false_all_correct_is_won :
    ∃ s', triggerSubmit true allCorrectNoWinJudge craneState = some s' ∧
      s'.isGameOver = true ∧ s'.currentRow = craneState.currentRow ∧
      displayed s' = some winMessage :=
  ⟨_, rfl, rfl, rfl, by decide⟩

theorem submitFailed_ways :
    SubmitFailed .networkFailure ∧
    (∀ status json, statusOk status = false → SubmitFailed (.response status json)) ∧
    (∀ status, SubmitFailed (.response status none)) ∧
    (∀ status, statusOk status = true → SubmitFailed (.response status (some .null))) ∧
    (∀ status p, statusOk status = true → p.result = .missing → p.feedback = .missing →
      p.colors = .missing → SubmitFailed (.response status (some (.obj p)))) ∧
    (∀ status p, statusOk status = true → (feedbackOf p).length? ≠ some 5 →
      SubmitFailed (.response status (some (.obj p)))) := by
  refine ⟨Or.inl ⟨_, rfl⟩, ?_, ?_, ?_, ?_, ?_⟩
  · intro status json hst
    by_cases h400 : status = 400
    · subst h400
      exact Or.inl (apiCheckGuess_400 json)
    · exact Or.inl ⟨"API请求失败: " ++ toString status, by simp [apiCheckGuess, hst, h400]⟩
  · intro status
    by_cases hst : statusOk status = true
    · exact Or.inl ⟨"SyntaxError: Unexpected token", by simp [apiCheckGuess, hst]⟩
    · by_cases h400 : status = 400
      · subst h400
        exact Or.inl (apiCheckGuess_400 none)
      · exact Or.inl ⟨"API请求失败: " ++ toString status, by simp [apiCheckGuess, hst, h400]⟩
  · intro status hst
    exact Or.inr (Or.inl (by simp [apiCheckGuess, hst]))
  · intro status p hst h1 h2 h3
    exact Or.inr (Or.inr (Or.inr ⟨p, by simp [apiCheckGuess, hst], Or.inl ⟨h1, h2, h3⟩⟩))
  · intro status p hst hlen
    exact Or.inr (Or.inr (Or.inr ⟨p, by simp [apiCheckGuess, hst], Or.inr hlen⟩))

/-- C5: when the submission of a full row fails (the judge call throws, the
body is empty, none of `result` / `feedback` / `colors` is present, or the
feedback does not have length 5), `triggerSubmit` returns and leaves
`boardState`, the keyboard state, `currentRow`, `currentCol` and `isGameOver`
as they were; `isSubmitting` is false again and the text of the `catch` branch
is on display. -/
theorem C5_failed_submit_keeps_state (confetti : Bool) (judge : List Char → HttpResult)
    (s : GameState) (row : List Slot) (hcol : s.currentCol = COLS)
    (hrow : currentRowSlots s = some row) (hfail : SubmitFailed (judge (joinRow row))) :
    ∃ s', triggerSubmit confetti judge s = some s' ∧
      s'.boardState = s.boardState ∧ s'.keyState = s.keyState ∧
      s'.currentRow = s.currentRow ∧ s'.currentCol = s.currentCol ∧
      s'.isGameOver = s.isGameOver ∧ s'.isSubmitting = false ∧
      displayed s' = some errorMessage := by
  obtain ⟨e, he⟩ := tryBlock_of_submitFailed confetti (judge (joinRow row)) (joinRow row)
    (showMessage { s with isSubmitting := true } checkingMessage) hfail
  have heq := triggerSubmit_of_full confetti judge s row hcol hrow
  rw [triggerSubmitResume_of_error _ _ _ _ e he] at heq
  refine ⟨_, heq, rfl, rfl, rfl, rfl, rfl, rfl, ?_⟩
  simp [displayed, showMessage, consoleError]

/-- C5 (witness): the first row `CRANE` submitted while the connection to the
judge fails. -/
theorem C5_failed_submit_keeps_state_witness :
    ∃ s', triggerSubmit true offlineJudge craneState = some s' ∧
      s'.boardState = craneState.boardState ∧ s'.keyState = craneState.keyState ∧
      s'.currentRow = craneState.currentRow ∧ s'.currentCol = craneState.currentCol ∧
      s'.isGameOver = craneState.isGameOver ∧ s'.isSubmitting = false ∧
      displayed s' = some errorMessage :=
  C5_failed_submit_keeps_state true offlineJudge craneState
    [some 'C', some 'R', some 'A', some 'N', some 'E'] rfl rfl (Or.inl ⟨_, rfl⟩)

/-- C6: while a submission is in flight (`isSubmitting` is true), `Enter`
returns at once: no judge request is made and the state is the same state
(grid, cursor, keyboard state, `isGameOver`, `isSubmitting`, messages). -/
theorem C6_second_submit_is_noop (s : GameState) (h : s.isSubmitting = true) :
    ∃ st, handleKey "Enter" s = some st ∧ st.request = none ∧ st.state = s :=
  ⟨.done s, by simp [handleKey, h], rfl, rfl⟩

/-- C6 (witness): `Enter` on the full first row sends `CRANE` and leaves
`inFlightState`; a second `Enter` there is a no-op. -/
theorem C6_second_submit_is_noop_witness :
    handleKey "Enter" craneState = some (.awaiting inFlightState ['C', 'R', 'A', 'N', 'E']) ∧
    ∃ st, handleKey "Enter" inFlightState = some st ∧ st.request = none ∧
      st.state = inFlightState :=
  ⟨rfl, C6_second_submit_is_noop inFlightState rfl⟩

/-- C7: with `currentCol < COLS`, `triggerSubmit` returns without reaching the
judge call; `boardState`, the keyboard state, `currentRow`, `currentCol`,
`isGameOver`, `isSubmitting` and the error log are unchanged, and the one
effect is the text "请填满 5 个字母后再提交" passed to `showMessage`. -/
theorem C7_incomplete_row_submit (confetti : Bool) (judge : List Char → HttpResult)
    (s : GameState) (h : s.currentCol < COLS) :
    ∃ st, triggerSubmitStart s = some st ∧ st.request = none ∧
      triggerSubmit confetti judge s = some st.state ∧
      st.state.boardState = s.boardState ∧ st.state.keyState = s.keyState ∧
      st.state.currentRow = s.currentRow ∧ st.state.currentCol = s.currentCol ∧
      st.state.isGameOver = s.isGameOver ∧ st.state.isSubmitting = s.isSubmitting ∧
      st.state.errorLog = s.errorLog ∧
      st.state.messages = s.messages ++ [incompleteMessage] := by
  have hne : s.currentCol ≠ COLS := Nat.ne_of_lt h
  exact ⟨.done (showMessage s incompleteMessage), by simp [triggerSubmitStart, hne], rfl,
    by simp [triggerSubmit, triggerSubmitStart, hne, Step.state],
    rfl, rfl, rfl, rfl, rfl, rfl, rfl, rfl⟩

/-- C7 (witness): a submit with two letters typed. -/
theorem C7_incomplete_row_submit_witness :
    ∃ st, triggerSubmitStart partialState = some st ∧ st.request = none ∧
      triggerSubmit true allCorrectJudge partialState = some st.state ∧
      st.state.boardState = partialState.boardState ∧
      st.state.keyState = partialState.keyState ∧
      st.state.currentRow = partialState.currentRow ∧
      st.state.currentCol = partialState.currentCol ∧
      st.state.isGameOver = partialState.isGameOver ∧
      st.state.isSubmitting = partialState.isSubmitting ∧
      st.state.errorLog = partialState.errorLog ∧
      st.state.messages = partialState.messages ++ [incompleteMessage] :=
  C7_incomplete_row_submit true allCorrectJudge partialState (by decide)

theorem lossMessage_ne_winMessage (p : Payload) : lossMessage p ≠ winMessage := by
  intro h
  have h' := congrArg String.data h
  simp [lossMessage, winMessage, String.data_append] at h'

theorem isWin_false_of_not_all_correct (p : Payload) (tokens : List String)
    (hflag : p.win = .missing) (hsome : ∃ t ∈ tokens, t ≠ "correct" ∧ t ≠ "green") :
    isWin p (.arr tokens) = false := by
  obtain ⟨t, ht, h1, h2⟩ := hsome
  have hall : tokens.all (fun c => decide (c = "correct") || decide (c = "green")) = false := by
    rw [List.all_eq_false]
    exact ⟨t, ht, by simp [h1, h2]⟩
  simp [isWin, hflag, Field.truthy, everyCorrect, hall]

/-- C8: for a full row, `triggerSubmit` reaches the judge call with
`isSubmitting` true; while it waits every `handleKey` call returns with the
state untouched, so the flag stays true throughout the call; and whatever the
request produces and whether or not `startConfetti` throws, `isSubmitting` is
false when `triggerSubmit` has completed. -/
theorem C8_lock_held_then_released (s : GameState) (row : List Slot)
    (hcol : s.currentCol = COLS) (hrow : currentRowSlots s = some row) :
    ∃ s1, triggerSubmitStart s = some (.awaiting s1 (joinRow row)) ∧
      s1.isSubmitting = true ∧
      (∀ key, handleKey key s1 = some (.done s1)) ∧
      (∀ confetti res, (triggerSubmitResume confetti res (joinRow row) s1).isSubmitting = false) ∧
      (∀ confetti judge, ∃ s', triggerSubmit confetti judge s = some s' ∧
        s'.isSubmitting = false) := by
  have hrow' : s.boardState[s.currentRow]? = some row := hrow
  refine ⟨showMessage { s with isSubmitting := true } checkingMessage,
    by simp [triggerSubmitStart, hcol, hrow'], rfl, ?_, fun _ _ => rfl, ?_⟩
  · intro key
    simp [handleKey, showMessage]
  · intro confetti judge
    exact ⟨_, triggerSubmit_of_full confetti judge s row hcol hrow, rfl⟩

/-- C8 (witness): the first row `CRANE`; the lock is released also when the
judge answers status 500 and when `startConfetti` throws after a win. -/
theorem C8_lock_held_then_released_witness :
    (∃ s1, triggerSubmitStart craneState =
        some (.awaiting s1 (joinRow [some 'C', some 'R', some 'A', some 'N', some 'E'])) ∧
      s1.isSubmitting = true ∧
      (∀ key, handleKey key s1 = some (.done s1)) ∧
      (∀ confetti res, (triggerSubmitResume confetti res
        (joinRow [some 'C', some 'R', some 'A', some 'N', some 'E']) s1).isSubmitting = false) ∧
      (∀ confetti judge, ∃ s', triggerSubmit confetti judge craneState = some s' ∧
        s'.isSubmitting = false)) ∧
    (∃ s', triggerSubmit true failingJudge craneState = some s' ∧ s'.isSubmitting = false) ∧
    (∃ s', triggerSubmit false allCorrectJudge craneState = some s' ∧
      s'.isSubmitting = false ∧ s'.isGameOver = true) :=
  ⟨C8_lock_held_then_released craneState [some 'C', some 'R', some 'A', some 'N', some 'E']
      rfl rfl,
    ⟨_, rfl, rfl⟩, ⟨_, rfl, rfl, rfl⟩⟩

/-- C9: a full row submitted with `currentRow = ROWS - 1`, answered by an
accepted response with no win flag and five tokens of which at least one is
neither `"correct"` nor `"green"`: `isGameOver` becomes true, `currentRow`
becomes `ROWS`, the text on display is the loss text, and the win text is not
among the texts shown by this submit. -/
theorem C9_last_row_miss_is_lost (confetti : Bool) (judge : List Char → HttpResult)
    (s : GameState) (row : List Slot) (p : Payload) (tokens : List String)
    (hcol : s.currentCol = COLS) (hlast : s.currentRow = ROWS - 1)
    (hrow : currentRowSlots s = some row)
    (hok : apiCheckGuess (judge (joinRow row)) = .ok (.obj p))
    (hflag : p.win = .missing) (hf : feedbackOf p = .arr tokens) (hlen : tokens.length = 5)
    (hsome : ∃ t ∈ tokens, t ≠ "correct" ∧ t ≠ "green") :
    ∃ s', triggerSubmit confetti judge s = some s' ∧
      s'.isGameOver = true ∧ s'.currentRow = ROWS ∧ s'.isSubmitting = false ∧
      s'.messages = s.messages ++ [checkingMessage, lossMessage p] ∧
      displayed s' = some (lossMessage p) ∧
      winMessage ∉ [checkingMessage, lossMessage p] := by
  have heq := triggerSubmit_of_full confetti judge s row hcol hrow
  rw [triggerSubmitResume_not_win confetti _ _ _ p tokens hok hf hlen
    (isWin_false_of_not_all_correct p tokens hflag hsome)] at heq
  have hge : s.currentRow + 1 ≥ ROWS := by rw [hlast]; decide
  refine ⟨_, heq, ?_, ?_, rfl, ?_, ?_, ?_⟩
  · simp [showMessage, hge]
  · simp [showMessage, hlast, ROWS]
  · simp [showMessage, hge]
  · simp [displayed, showMessage, hge]
  · intro hmem
    rcases List.mem_cons.mp hmem with h | h
    · exact absurd h (by decide)
    · exact lossMessage_ne_winMessage p (List.mem_singleton.mp h).symm

/-- C9 (witness): the sixth row `STONE` answered
`green, gray, yellow, green, green` with no win flag. -/
theorem C9_last_row_miss_is_lost_witness :
    ∃ s', triggerSubmit true mixedJudge lastRowState = some s' ∧
      s'.isGameOver = true ∧ s'.currentRow = ROWS ∧ s'.isSubmitting = false ∧
      s'.messages = lastRowState.messages ++
        [checkingMessage, lossMessage
          { feedback := .arr ["green", "gray", "yellow", "green", "green"]
            answer := .str "STOVE" }] ∧
      displayed s' = some (lossMessage
          { feedback := .arr ["green", "gray", "yellow", "green", "green"]
            answer := .str "STOVE" }) ∧
      winMessage ∉ [checkingMessage, lossMessage
          { feedback := .arr ["green", "gray", "yellow", "green", "green"]
            answer := .str "STOVE" }] :=
  C9_last_row_miss_is_lost true mixedJudge lastRowState
    [some 'S', some 'T', some 'O', some 'N', some 'E']
    { feedback := .arr ["green", "gray", "yellow", "green", "green"], answer := .str "STOVE" }
    ["green", "gray", "yellow", "green", "green"] rfl rfl rfl rfl rfl rfl rfl
    ⟨"gray", by decide, by decide, by decide⟩

/-- C10: a full row (on any existing row) answered by an accepted response
whose `result` is five `"correct"` tokens, in particular one with no win flag:
`isGameOver` becomes true, `currentRow` and `currentCol` are not changed, and
the win text is shown.  No assumption on the `win` field is needed. -/
theorem C10_all_correct_is_won (confetti : Bool) (judge : List Char → HttpResult)
    (s : GameState) (row : List Slot) (p : Payload)
    (hcol : s.currentCol = COLS) (hrow : currentRowSlots s = some row)
    (hok : apiCheckGuess (judge (joinRow row)) = .ok (.obj p))
    (hres : p.result = .arr ["correct", "correct", "correct", "correct", "correct"]) :
    ∃ s', triggerSubmit confetti judge s = some s' ∧
      s'.isGameOver = true ∧ s'.currentRow = s.currentRow ∧ s'.currentCol = s.currentCol ∧
      s'.boardState = s.boardState ∧ s'.isSubmitting = false ∧
      winMessage ∈ s'.messages := by
  have hf : feedbackOf p = .arr ["correct", "correct", "correct", "correct", "correct"] := by
    simp [feedbackOf, hres, Field.or, Field.truthy]
  have hwin : isWin p (.arr ["correct", "correct", "correct", "correct", "correct"]) = true := by
    simp [isWin, everyCorrect]
  have heq := triggerSubmit_of_full confetti judge s row hcol hrow
  rw [triggerSubmitResume_win confetti _ _ _ p _ hok hf rfl hwin] at heq
  refine ⟨_, heq, rfl, rfl, rfl, rfl, rfl, ?_⟩
  simp [showMessage]

/-- C10 (witness): the first row `CRANE` answered five `"correct"` tokens and
no win flag. -/
theorem C10_all_correct_is_won_witness :
    ∃ s', triggerSubmit true allCorrectJudge craneState = some s' ∧
      s'.isGameOver = true ∧ s'.currentRow = craneState.currentRow ∧
      s'.currentCol = craneState.currentCol ∧
      s'.boardState = craneState.boardState ∧ s'.isSubmitting = false ∧
      winMessage ∈ s'.messages :=
  C10_all_correct_is_won true allCorrectJudge craneState
    [some 'C', some 'R', some 'A', some 'N', some 'E']
    { result := .arr ["correct", "correct", "correct", "correct", "correct"] }
    rfl rfl rfl rfl

/-! ## The feedback normaliser -/

/-- C11: `mapColorToClass` applied element-wise, as `applyColors` does, gives a
sequence of the same length whose entry at any position is `correct` for the
tokens `"green"` and `"correct"`, `present` for `"yellow"` and `"present"`, and
`absent` for every other token (`"gray"`, `"absent"` and anything
unrecognised); `applyColors` returns for every array of tokens. -/
theorem C11_normaliser (tokens : List String) :
    (tokens.map mapColorToClass).length = tokens.length ∧
    (∀ (i : Nat) (t : String), tokens[i]? = some t →
      (tokens.map mapColorToClass)[i]? = some (mapColorToClass t) ∧
      ((t = "green" ∨ t = "correct") → mapColorToClass t = .correct) ∧
      ((t = "yellow" ∨ t = "present") → mapColorToClass t = .present) ∧
      ((t ≠ "green" ∧ t ≠ "correct" ∧ t ≠ "yellow" ∧ t ≠ "present") →
        mapColorToClass t = .absent)) ∧
    (∀ guessStr s, applyColors (.arr tokens) guessStr s =
      some { s with keyState :=
        updateKeyboardColors guessStr (tokens.map mapColorToClass) s.keyState }) := by
  refine ⟨by simp, ?_, fun _ _ => rfl⟩
  intro i t hi
  refine ⟨by simp [List.getElem?_map, hi], ?_, ?_, ?_⟩
  · intro h
    simp [mapColorToClass, h]
  · intro h
    rcases h with h | h <;> subst h <;> decide
  · rintro ⟨h1, h2, h3, h4⟩
    simp [mapColorToClass, h1, h2, h3, h4]

/-- C11 (witness): `green, gray, yellow, green, green` maps to `correct,
absent, present, correct, correct`; an unrecognised token maps to `absent`. -/
theorem C11_normaliser_witness :
    ["green", "gray", "yellow", "green", "green"].map mapColorToClass =
      [.correct, .absent, .present, .correct, .correct] ∧
    mapColorToClass "purple" = .absent ∧
    (["green", "gray", "yellow", "green", "green"].map mapColorToClass)[2]? =
      some (mapColorToClass "yellow") ∧
    mapColorToClass "yellow" = .present :=
  ⟨by decide, by decide,
    ((C11_normaliser ["green", "gray", "yellow", "green", "green"]).2.1 2 "yellow" rfl).1,
    ((C11_normaliser ["green", "gray", "yellow", "green", "green"]).2.1 2 "yellow" rfl).2.2.1
      (Or.inl rfl)⟩

/-- C12: a full row with `currentRow + 1 < ROWS`, answered by an accepted
response (five tokens) that is not a win: `currentRow` grows by one,
`currentCol` is 0, `isGameOver` keeps its value (false stays false),
`isSubmitting` is false, and the board, so the letters of the submitted row, is
unchanged. -/
theorem C12_not_win_advances_row (confetti : Bool) (judge : List Char → HttpResult)
    (s : GameState) (row : List Slot) (p : Payload) (tokens : List String)
    (hcol : s.currentCol = COLS) (hnext : s.currentRow + 1 < ROWS)
    (hrow : currentRowSlots s = some row)
    (hok : apiCheckGuess (judge (joinRow row)) = .ok (.obj p))
    (hf : feedbackOf p = .arr tokens) (hlen : tokens.length = 5)
    (hwin : isWin p (.arr tokens) = false) :
    ∃ s', triggerSubmit confetti judge s = some s' ∧
      s'.currentRow = s.currentRow + 1 ∧ s'.currentCol = 0 ∧
      s'.isGameOver = s.isGameOver ∧ s'.isSubmitting = false ∧
      s'.boardState = s.boardState ∧ s'.boardState[s.currentRow]? = some row ∧
      s'.keyState = updateKeyboardColors (joinRow row) (tokens.map mapColorToClass) s.keyState ∧
      displayed s' = some nextRowMessage := by
  have heq := triggerSubmit_of_full confetti judge s row hcol hrow
  rw [triggerSubmitResume_not_win confetti _ _ _ p tokens hok hf hlen hwin] at heq
  have hlt : ¬ (s.currentRow + 1 ≥ ROWS) := Nat.not_le.mpr hnext
  refine ⟨_, heq, rfl, rfl, ?_, rfl, rfl, hrow, rfl, ?_⟩
  · simp [showMessage, hlt]
  · simp [displayed, showMessage, hlt]

/-- C12 (witness): the first row `CRANE` answered `green, gray, yellow, green,
green` with `win: false`. -/
theorem C12_not_win_advances_row_witness :
    ∃ s', triggerSubmit true mixedNoWinJudge craneState = some s' ∧
      s'.currentRow = craneState.currentRow + 1 ∧ s'.currentCol = 0 ∧
      s'.isGameOver = craneState.isGameOver ∧ s'.isSubmitting = false ∧
      s'.boardState = craneState.boardState ∧
      s'.boardState[craneState.currentRow]? =
        some [some 'C', some 'R', some 'A', some 'N', some 'E'] ∧
      s'.keyState = updateKeyboardColors
        (joinRow [some 'C', some 'R', some 'A', some 'N', some 'E'])
        (["green", "gray", "yellow", "green", "green"].map mapColorToClass)
        craneState.keyState ∧
      displayed s' = some nextRowMessage :=
  C12_not_win_advances_row true mixedNoWinJudge craneState
    [some 'C', some 'R', some 'A', some 'N', some 'E']
    { feedback := .arr ["green", "gray", "yellow", "green", "green"], win := .bool false }
    ["green", "gray", "yellow", "green", "green"] rfl (by decide) rfl rfl rfl rfl rfl

/-! ## What one observed guess records -/

theorem updateKey_same (letter : Char) (state : LetterState)
    (keyState : Char → Option LetterState) (hkey : hasKey letter = true) :
    updateKey letter state keyState letter = keepBest (keyState letter) state := by
  unfold updateKey keepBest
  cases hup : shouldUpdate (keyState letter) state <;> simp [hkey]

theorem updateKey_other (letter : Char) (state : LetterState)
    (keyState : Char → Option LetterState) (k : Char) (hk : k ≠ letter) :
    updateKey letter state keyState k = keyState k := by
  unfold updateKey
  split
  · rfl
  · split
    · simp [hk]
    · rfl

theorem updateKeyboardColors_eq_foldl (letter : Char) (hkey : hasKey letter = true)
    (guess : List Char) :
    ∀ (cssClasses : List LetterState) (keyState : Char → Option LetterState),
      updateKeyboardColors guess cssClasses keyState letter =
        (observedFor letter guess cssClasses).foldl keepBest (keyState letter) := by
  induction guess with
  | nil => intro cssClasses keyState; simp [updateKeyboardColors, observedFor]
  | cons l guess ih =>
    intro cssClasses keyState
    cases cssClasses with
    | nil => simp [updateKeyboardColors, observedFor]
    | cons state cssClasses =>
      simp only [updateKeyboardColors, observedFor]
      rw [ih]
      by_cases hl : l = letter
      · subst hl
        simp [updateKey_same _ _ _ hkey]
      · have hne : letter ≠ l := fun h => hl h.symm
        simp [hl, updateKey_other _ _ _ _ hne]

theorem updateKeyboardColors_not_mem (k : Char) (guess : List Char) :
    ∀ (cssClasses : List LetterState) (keyState : Char → Option LetterState),
      k ∉ guess → updateKeyboardColors guess cssClasses keyState k = keyState k := by
  induction guess with
  | nil => intro cssClasses keyState _; simp [updateKeyboardColors]
  | cons l guess ih =>
    intro cssClasses keyState hk
    cases cssClasses with
    | nil => simp [updateKeyboardColors]
    | cons state cssClasses =>
      have hne : k ≠ l := fun h => hk (by simp [h])
      have hrest : k ∉ guess := fun h => hk (by simp [h])
      simp only [updateKeyboardColors]
      rw [ih _ _ hrest, updateKey_other _ _ _ _ hne]

theorem foldl_keepBest_some (obs : List LetterState) :
    ∀ prev, ∃ st, obs.foldl keepBest (some prev) = some st ∧ (st = prev ∨ st ∈ obs) ∧
      priority prev ≤ priority st ∧ ∀ c ∈ obs, priority c ≤ priority st := by
  induction obs with
  | nil => intro prev; exact ⟨prev, rfl, Or.inl rfl, Nat.le_refl _, by simp⟩
  | cons o obs ih =>
    intro prev
    by_cases hup : priority o > priority prev
    · obtain ⟨st, hst, hmem, hle, hall⟩ := ih o
      refine ⟨st, by simpa [keepBest, shouldUpdate, hup] using hst, ?_, ?_, ?_⟩
      · rcases hmem with h | h
        · exact Or.inr (by simp [h])
        · exact Or.inr (by simp [h])
      · exact Nat.le_trans (Nat.le_of_lt hup) hle
      · intro c hc
        rcases List.mem_cons.mp hc with h | h
        · subst h; exact hle
        · exact hall c h
    · obtain ⟨st, hst, hmem, hle, hall⟩ := ih prev
      refine ⟨st, by simpa [keepBest, shouldUpdate, hup] using hst, ?_, hle, ?_⟩
      · rcases hmem with h | h
        · exact Or.inl h
        · exact Or.inr (by simp [h])
      · intro c hc
        rcases List.mem_cons.mp hc with h | h
        · subst h; exact Nat.le_trans (Nat.not_lt.mp hup) hle
        · exact hall c h

theorem mem_observedFor (letter : Char) (st : LetterState) (guess : List Char) :
    ∀ cssClasses : List LetterState, st ∈ observedFor letter guess cssClasses ↔
      ∃ i : Nat, guess[i]? = some letter ∧ cssClasses[i]? = some st := by
  induction guess with
  | nil => intro cssClasses; simp [observedFor]
  | cons l guess ih =>
    intro cssClasses
    cases cssClasses with
    | nil => simp [observedFor]
    | cons state cssClasses =>
      constructor
      · intro h
        by_cases hl : l = letter
        · simp only [observedFor, hl, if_true] at h
          rcases List.mem_cons.mp h with h | h
          · exact ⟨0, by simp [hl], by simp [h]⟩
          · obtain ⟨i, h1, h2⟩ := (ih cssClasses).mp h
            exact ⟨i + 1, by simpa using h1, by simpa using h2⟩
        · simp only [observedFor, hl, if_false] at h
          obtain ⟨i, h1, h2⟩ := (ih cssClasses).mp h
          exact ⟨i + 1, by simpa using h1, by simpa using h2⟩
      · rintro ⟨i, h1, h2⟩
        cases i with
        | zero =>
          have hl : l = letter := by simpa using h1
          have hs : state = st := by simpa using h2
          simp [observedFor, hl, hs]
        | succ j =>
          have hrec : st ∈ observedFor letter guess cssClasses :=
            (ih cssClasses).mpr ⟨j, by simpa using h1, by simpa using h2⟩
          by_cases hl : l = letter
          · simp [observedFor, hl, hrec]
          · simp [observedFor, hl, hrec]

theorem observedFor_ne_nil (letter : Char) (guess : List Char) :
    ∀ cssClasses : List LetterState, guess.length = cssClasses.length → letter ∈ guess →
      observedFor letter guess cssClasses ≠ [] := by
  induction guess with
  | nil => intro cssClasses _ h; simp at h
  | cons l guess ih =>
    intro cssClasses hlen hmem
    cases cssClasses with
    | nil => simp at hlen
    | cons state cssClasses =>
      by_cases hl : l = letter
      · simp [observedFor, hl]
      · have hrest : letter ∈ guess := by
          rcases List.mem_cons.mp hmem with h | h
          · exact absurd h.symm hl
          · exact h
        simpa [observedFor, hl] using ih cssClasses (by simpa using hlen) hrest

/-- C13: after `updateKeyboardColors(guess, cssClasses)` with one class per
position, every letter `A`-`Z` occurring in the guess has a recorded state; that
state is its prior recorded state or the class at a position where the letter
occurs, and its priority is at least that of the prior state and of the class
at every such position.  The recorded state of a letter not occurring in the
guess is unchanged. -/
theorem C13_observe_records_best (guess : List Char) (cssClasses : List LetterState)
    (keyState : Char → Option LetterState) (hlen : guess.length = cssClasses.length) :
    (∀ letter, hasKey letter = true → letter ∈ guess →
      ∃ st, updateKeyboardColors guess cssClasses keyState letter = some st ∧
        (keyState letter = some st ∨
          ∃ i : Nat, guess[i]? = some letter ∧ cssClasses[i]? = some st) ∧
        (∀ prev, keyState letter = some prev → priority prev ≤ priority st) ∧
        (∀ (i : Nat) (c : LetterState), guess[i]? = some letter → cssClasses[i]? = some c →
          priority c ≤ priority st)) ∧
    (∀ k, k ∉ guess → updateKeyboardColors guess cssClasses keyState k = keyState k) := by
  refine ⟨?_, fun k hk => updateKeyboardColors_not_mem k guess cssClasses keyState hk⟩
  intro letter hkey hmem
  rw [updateKeyboardColors_eq_foldl letter hkey guess cssClasses keyState]
  have hobs := observedFor_ne_nil letter guess cssClasses hlen hmem
  cases hprev : keyState letter with
  | none =>
    cases hlist : observedFor letter guess cssClasses with
    | nil => exact absurd hlist hobs
    | cons o rest =>
      obtain ⟨st, hst, hfrom, hle0, hall⟩ := foldl_keepBest_some rest o
      have hst' : (o :: rest).foldl keepBest none = some st := by
        simpa [keepBest, shouldUpdate] using hst
      have hin : st ∈ observedFor letter guess cssClasses := by
        rw [hlist]
        rcases hfrom with h | h
        · simp [h]
        · simp [h]
      refine ⟨st, hst', Or.inr ((mem_observedFor letter st guess cssClasses).mp hin), ?_, ?_⟩
      · intro prev hp
        cases hp
      · intro i c h1 h2
        have hc : c ∈ o :: rest := by
          rw [← hlist]
          exact (mem_observedFor letter c guess cssClasses).mpr ⟨i, h1, h2⟩
        rcases List.mem_cons.mp hc with h | h
        · subst h
          exact hle0
        · exact hall c h
  | some prev =>
    obtain ⟨st, hst, hfrom, hle, hall⟩ :=
      foldl_keepBest_some (observedFor letter guess cssClasses) prev
    refine ⟨st, hst, ?_, ?_, ?_⟩
    · rcases hfrom with h | h
      · exact Or.inl (by rw [h])
      · exact Or.inr ((mem_observedFor letter st guess cssClasses).mp h)
    · intro q hq
      cases hq
      exact hle
    · intro i c h1 h2
      exact hall c ((mem_observedFor letter c guess cssClasses).mpr ⟨i, h1, h2⟩)

/-- C13 (witness): `LEVEL` observed with `absent, present, absent, correct,
absent` on a keyboard where `L` is already `present`: `E` becomes `correct`,
`L` stays `present`, `V` becomes `absent`, and `A`, not in the guess, keeps no
state. -/
theorem C13_observe_records_best_witness :
    updateKeyboardColors ['L', 'E', 'V', 'E', 'L']
      [.absent, .present, .absent, .correct, .absent]
      (fun k => if k = 'L' then some .present else none) 'E' = some .correct ∧
    updateKeyboardColors ['L', 'E', 'V', 'E', 'L']
      [.absent, .present, .absent, .correct, .absent]
      (fun k => if k = 'L' then some .present else none) 'L' = some .present ∧
    updateKeyboardColors ['L', 'E', 'V', 'E', 'L']
      [.absent, .present, .absent, .correct, .absent]
      (fun k => if k = 'L' then some .present else none) 'V' = some .absent ∧
    updateKeyboardColors ['L', 'E', 'V', 'E', 'L']
      [.absent, .present, .absent, .correct, .absent]
      (fun k => if k = 'L' then some .present else none) 'A' =
      (fun k => if k = 'L' then some LetterState.present else none) 'A' :=
  ⟨by decide, by decide, by decide,
    (C13_observe_records_best ['L', 'E', 'V', 'E', 'L']
      [.absent, .present, .absent, .correct, .absent]
      (fun k => if k = 'L' then some .present else none) rfl).2 'A' (by decide)⟩

/-! ## Sessions: the shape every event keeps -/

theorem stateInv_initial : StateInv initialState where
  rows := by decide
  cols := by decide
  bound := fun _ => by decide
  later := by
    intro r row _ hrow x hx
    have hmem : row ∈ initialState.boardState := List.getElem?_mem hrow
    have hrow' : row = List.replicate COLS none := List.eq_of_mem_replicate hmem
    subst hrow'
    exact List.eq_of_mem_replicate hx
  cursor := by
    intro row hrow
    obtain ⟨row', hrow', _, hcol, hfill⟩ := initialState_cursorInv
    rw [hrow] at hrow'
    cases hrow'
    exact ⟨hcol, hfill⟩
  upper := by
    intro row hmem c hc
    have hrow' : row = List.replicate COLS none := List.eq_of_mem_replicate hmem
    subst hrow'
    have := List.eq_of_mem_replicate hc
    cases this

theorem stateInv_of_same_board (s s' : GameState) (hb : s'.boardState = s.boardState)
    (hr : s'.currentRow = s.currentRow) (hc : s'.currentCol = s.currentCol)
    (hg : s'.isGameOver = false → s.isGameOver = false) (h : StateInv s) : StateInv s' where
  rows := by rw [hb]; exact h.rows
  cols := by rw [hb]; exact h.cols
  bound := fun hover => by rw [hr]; exact h.bound (hg hover)
  later := by rw [hb, hr]; exact h.later
  cursor := by
    intro row hrow
    have hrow' : currentRowSlots s = some row := by
      unfold currentRowSlots at hrow ⊢
      rw [hb, hr] at hrow
      exact hrow
    rw [hc]
    exact h.cursor row hrow'
  upper := by rw [hb]; exact h.upper

theorem stateInv_next_row (s s' : GameState) (hb : s'.boardState = s.boardState)
    (hr : s'.currentRow = s.currentRow + 1) (hc : s'.currentCol = 0)
    (hg : s'.isGameOver = false → s.currentRow + 1 < ROWS) (h : StateInv s) :
    StateInv s' where
  rows := by rw [hb]; exact h.rows
  cols := by rw [hb]; exact h.cols
  bound := fun hover => by rw [hr]; exact hg hover
  later := by
    intro r row hlt hrow
    rw [hb] at hrow
    rw [hr] at hlt
    exact h.later r row (by omega) hrow
  cursor := by
    intro row hrow
    have hrow' : s.boardState[s.currentRow + 1]? = some row := by
      unfold currentRowSlots at hrow
      rw [hb, hr] at hrow
      exact hrow
    have hempty := h.later (s.currentRow + 1) row (Nat.lt_succ_self _) hrow'
    rw [hc]
    refine ⟨Nat.zero_le _, ?_⟩
    intro i hi
    have hx : row.getD i none = none := by
      rw [List.getD_eq_getElem?_getD, List.getElem?_eq_getElem hi]
      exact hempty _ (List.getElem_mem hi)
    rw [hx]
    simp
  upper := by rw [hb]; exact h.upper

theorem stateInv_edit (s : GameState) (row row' : List Slot) (col : Nat) (h : StateInv s)
    (hrow : currentRowSlots s = some row) (hlen : row'.length = COLS)
    (hup : ∀ c : Char, some c ∈ row' → c.isUpper = true)
    (hcur : col ≤ COLS ∧ PrefixFilled row' col) :
    StateInv { s with boardState := s.boardState.set s.currentRow row', currentCol := col } where
  rows := by simpa using h.rows
  cols := by
    intro r hr
    rcases List.mem_or_eq_of_mem_set hr with hmem | heq
    · exact h.cols r hmem
    · rw [heq]; exact hlen
  bound := h.bound
  later := by
    intro r r' hlt hr
    have hne : s.currentRow ≠ r := Nat.ne_of_lt hlt
    have hr' : s.boardState[r]? = some r' := by
      simpa [List.getElem?_set_ne hne] using hr
    exact h.later r r' hlt hr'
  cursor := by
    intro r hr
    have hset : (s.boardState.set s.currentRow row')[s.currentRow]? = some row' :=
      getElem?_set_self_of_some _ _ row _ hrow
    have hr' : (s.boardState.set s.currentRow row')[s.currentRow]? = some r := hr
    rw [hset] at hr'
    cases hr'
    exact hcur
  upper := by
    intro r hr c hc
    rcases List.mem_or_eq_of_mem_set hr with hmem | heq
    · exact h.upper r hmem c hc
    · rw [heq] at hc; exact hup c hc

theorem insertLetter_stateInv (ch : Char) (hch : ch.isUpper = true) (s : GameState)
    (h : StateInv s) (hover : s.isGameOver = false) :
    ∃ s', insertLetter ch s = some s' ∧ StateInv s' ∧ s'.isGameOver = s.isGameOver ∧
      s'.isSubmitting = s.isSubmitting ∧ s'.currentRow = s.currentRow ∧
      ∀ r, r ≠ s.currentRow → s'.boardState[r]? = s.boardState[r]? := by
  have hlt : s.currentRow < s.boardState.length := by rw [h.rows]; exact h.bound hover
  have hrow : currentRowSlots s = some (s.boardState[s.currentRow]) := by
    simp [currentRowSlots, List.getElem?_eq_getElem hlt]
  have hrow' : s.boardState[s.currentRow]? = some (s.boardState[s.currentRow]) := hrow
  have hlen : (s.boardState[s.currentRow]).length = COLS :=
    h.cols _ (List.getElem_mem hlt)
  by_cases hc : s.currentCol ≥ COLS
  · exact ⟨s, by simp [insertLetter, hc], h, rfl, rfl, rfl, fun _ _ => rfl⟩
  · have heq : insertLetter ch s = some { s with
        boardState := s.boardState.set s.currentRow
          ((s.boardState[s.currentRow]).set s.currentCol (some ch))
        currentCol := s.currentCol + 1 } := by
      simp [insertLetter, hc, hrow']
    obtain ⟨s', hs', _, row', hrow'', _, hcol', hfill'⟩ :=
      insertLetter_cursorInv ch s ⟨_, hrow, hlen, (h.cursor _ hrow).1, (h.cursor _ hrow).2⟩
    rw [heq] at hs'
    cases hs'
    have hset : currentRowSlots { s with
        boardState := s.boardState.set s.currentRow
          ((s.boardState[s.currentRow]).set s.currentCol (some ch))
        currentCol := s.currentCol + 1 } =
        some ((s.boardState[s.currentRow]).set s.currentCol (some ch)) :=
      getElem?_set_self_of_some _ _ _ _ hrow'
    rw [hset] at hrow''
    cases hrow''
    refine ⟨_, heq, stateInv_edit s _ _ _ h hrow (by simpa using hlen) ?_ ⟨hcol', hfill'⟩,
      rfl, rfl, rfl, ?_⟩
    · intro c hmem
      rcases List.mem_or_eq_of_mem_set hmem with hm | he
      · exact h.upper _ (List.getElem_mem hlt) c hm
      · cases he; exact hch
    · intro r hr
      exact List.getElem?_set_ne (Ne.symm hr)

theorem deleteLetter_stateInv (s : GameState) (h : StateInv s) (hover : s.isGameOver = false) :
    ∃ s', deleteLetter s = some s' ∧ StateInv s' ∧ s'.isGameOver = s.isGameOver ∧
      s'.isSubmitting = s.isSubmitting ∧ s'.currentRow = s.currentRow ∧
      ∀ r, r ≠ s.currentRow → s'.boardState[r]? = s.boardState[r]? := by
  have hlt : s.currentRow < s.boardState.length := by rw [h.rows]; exact h.bound hover
  have hrow : currentRowSlots s = some (s.boardState[s.currentRow]) := by
    simp [currentRowSlots, List.getElem?_eq_getElem hlt]
  have hrow' : s.boardState[s.currentRow]? = some (s.boardState[s.currentRow]) := hrow
  have hlen : (s.boardState[s.currentRow]).length = COLS :=
    h.cols _ (List.getElem_mem hlt)
  by_cases hc : s.currentCol ≤ 0
  · exact ⟨s, by simp [deleteLetter, hc], h, rfl, rfl, rfl, fun _ _ => rfl⟩
  · have heq : deleteLetter s = some { s with
        boardState := s.boardState.set s.currentRow
          ((s.boardState[s.currentRow]).set (s.currentCol - 1) none)
        currentCol := s.currentCol - 1 } := by
      simp [deleteLetter, hc, hrow']
    obtain ⟨s', hs', _, row', hrow'', _, hcol', hfill'⟩ :=
      deleteLetter_cursorInv s ⟨_, hrow, hlen, (h.cursor _ hrow).1, (h.cursor _ hrow).2⟩
    rw [heq] at hs'
    cases hs'
    have hset : currentRowSlots { s with
        boardState := s.boardState.set s.currentRow
          ((s.boardState[s.currentRow]).set (s.currentCol - 1) none)
        currentCol := s.currentCol - 1 } =
        some ((s.boardState[s.currentRow]).set (s.currentCol - 1) none) :=
      getElem?_set_self_of_some _ _ _ _ hrow'
    rw [hset] at hrow''
    cases hrow''
    refine ⟨_, heq, stateInv_edit s _ _ _ h hrow (by simpa using hlen) ?_ ⟨hcol', hfill'⟩,
      rfl, rfl, rfl, ?_⟩
    · intro c hmem
      rcases List.mem_or_eq_of_mem_set hmem with hm | he
      · exact h.upper _ (List.getElem_mem hlt) c hm
      · cases he
    · intro r hr
      exact List.getElem?_set_ne (Ne.symm hr)

theorem applyColors_frame (colorArray : Field) (guessStr : List Char) (s s1 : GameState)
    (h : applyColors colorArray guessStr s = some s1) :
    s1.boardState = s.boardState ∧ s1.currentRow = s.currentRow ∧
      s1.currentCol = s.currentCol ∧ s1.isGameOver = s.isGameOver := by
  cases colorArray <;> simp [applyColors] at h
  subst h
  exact ⟨rfl, rfl, rfl, rfl⟩

theorem triggerSubmitResume_cases (confetti : Bool) (res : HttpResult)
    (currentGuess : List Char) (s : GameState) :
    (triggerSubmitResume confetti res currentGuess s).boardState = s.boardState ∧
    (triggerSubmitResume confetti res currentGuess s).isSubmitting = false ∧
    (((triggerSubmitResume confetti res currentGuess s).currentRow = s.currentRow ∧
        (triggerSubmitResume confetti res currentGuess s).currentCol = s.currentCol ∧
        ((triggerSubmitResume confetti res currentGuess s).isGameOver = false →
          s.isGameOver = false)) ∨
      ((triggerSubmitResume confetti res currentGuess s).currentRow = s.currentRow + 1 ∧
        (triggerSubmitResume confetti res currentGuess s).currentCol = 0 ∧
        ((triggerSubmitResume confetti res currentGuess s).isGameOver = false →
          s.currentRow + 1 < ROWS ∧ s.isGameOver = false))) := by
  unfold triggerSubmitResume tryBlock
  cases apiCheckGuess res with
  | error e => exact ⟨rfl, rfl, Or.inl ⟨rfl, rfl, fun h => h⟩⟩
  | ok body =>
    cases body with
    | null => exact ⟨rfl, rfl, Or.inl ⟨rfl, rfl, fun h => h⟩⟩
    | falsy => exact ⟨rfl, rfl, Or.inl ⟨rfl, rfl, fun h => h⟩⟩
    | obj p =>
      by_cases hbad : (!(feedbackOf p).truthy || (feedbackOf p).length? != some 5) = true
      · simp only [hbad, if_true]
        exact ⟨rfl, by first | rfl | trivial, Or.inl ⟨rfl, rfl, fun h => h⟩⟩
      · simp only [hbad]
        cases happ : applyColors (feedbackOf p) currentGuess s with
        | none => exact ⟨rfl, by first | rfl | trivial, Or.inl ⟨rfl, rfl, fun h => h⟩⟩
        | some s1 =>
          obtain ⟨hb, hr, hc, hg⟩ := applyColors_frame _ _ _ _ happ
          by_cases hwin : isWin p (feedbackOf p) = true
          · cases confetti
            · simp only [hwin, if_true]
              exact ⟨hb, by first | rfl | trivial, Or.inl ⟨hr, hc, fun h => by cases h⟩⟩
            · simp only [hwin, if_true]
              exact ⟨hb, by first | rfl | trivial, Or.inl ⟨hr, hc, fun h => by cases h⟩⟩
          · by_cases hlast : s1.currentRow + 1 ≥ ROWS
            · simp only [hwin, hlast, if_true]
              exact ⟨hb, by first | rfl | trivial, Or.inr ⟨by rw [← hr]; rfl, rfl, fun h => by cases h⟩⟩
            · simp only [hwin, hlast, if_false]
              refine ⟨hb, by first | rfl | trivial, Or.inr ⟨by rw [← hr]; rfl, rfl, fun h => ?_⟩⟩
              have hg' : s1.isGameOver = false := h
              exact ⟨by rw [← hr]; exact Nat.lt_of_not_ge hlast, by rw [← hg]; exact hg'⟩

theorem triggerSubmitResume_stateInv (confetti : Bool) (res : HttpResult)
    (currentGuess : List Char) (s : GameState) (h : StateInv s) :
    StateInv (triggerSubmitResume confetti res currentGuess s) := by
  obtain ⟨hb, _, hcase | hcase⟩ := triggerSubmitResume_cases confetti res currentGuess s
  · exact stateInv_of_same_board s _ hb hcase.1 hcase.2.1 hcase.2.2 h
  · exact stateInv_next_row s _ hb hcase.1 hcase.2.1 (fun hg => (hcase.2.2 hg).1) h

theorem isUpper_upperOf (key : String) (h : isLetterKey key = true) :
    (upperOf key).isUpper = true := by
  unfold isLetterKey at h
  unfold upperOf
  match hk : key.data, h with
  | [c], h =>
    simp only [List.headD_cons]
    simp only [Char.isAlpha, Bool.or_eq_true] at h
    rcases h with hu | hl
    · have hnot : ¬ (c.toNat ≥ 97 ∧ c.toNat ≤ 122) := by
        simp only [Char.isUpper, Bool.and_eq_true, decide_eq_true_eq] at hu
        have h2 : c.val.toNat ≤ 90 := hu.2
        have : c.toNat = c.val.toNat := rfl
        omega
      simp only [Char.toUpper, hnot, if_false]
      exact hu
    · have hrange : c.toNat ≥ 97 ∧ c.toNat ≤ 122 := by
        simp only [Char.isLower, Bool.and_eq_true, decide_eq_true_eq] at hl
        exact ⟨hl.1, hl.2⟩
      have hc : c = Char.ofNat c.toNat := (Char.ofNat_toNat c).symm
      obtain ⟨h1, h2⟩ := hrange
      generalize c.toNat = n at hc h1 h2
      subst hc
      interval_cases n <;> decide

theorem handleKey_locked (key : String) (s : GameState)
    (h : s.isGameOver = true ∨ s.isSubmitting = true) : handleKey key s = some (.done s) := by
  rcases h with h | h <;> simp [handleKey, h]

theorem handleKey_awaiting (key : String) (s s' : GameState) (g : List Char)
    (h : handleKey key s = some (.awaiting s' g)) :
    s.isGameOver = false ∧ s.isSubmitting = false ∧ s.currentCol = COLS ∧
      (∃ row, currentRowSlots s = some row ∧ g = joinRow row) ∧
      s' = showMessage { s with isSubmitting := true } checkingMessage := by
  by_cases hlock : (s.isGameOver || s.isSubmitting) = true
  · simp [handleKey, hlock] at h
  · have hover : s.isGameOver = false := by
      cases hg : s.isGameOver <;> simp [hg] at hlock ⊢
    have hsub : s.isSubmitting = false := by
      cases hg : s.isSubmitting <;> simp [hg] at hlock ⊢
    by_cases hletter : isLetterKey key = true
    · cases hins : insertLetter (upperOf key) s <;>
        simp [handleKey, hover, hsub, hletter, hins] at h
    · by_cases hdel : key = "Del"
      · subst hdel
        cases hd : deleteLetter s <;> simp [handleKey, hover, hsub, hletter, hd] at h
      · by_cases henter : key = "Enter"
        · subst henter
          by_cases hcol : s.currentCol ≠ COLS
          · simp [handleKey, hover, hsub, hletter, triggerSubmitStart, hcol] at h
          · have hcol' : s.currentCol = COLS := Classical.not_not.mp hcol
            cases hrow : s.boardState[s.currentRow]? with
            | none =>
              simp [handleKey, hover, hsub, hletter, triggerSubmitStart, hcol', hrow] at h
            | some row =>
              simp only [handleKey, hover, hsub, hletter, triggerSubmitStart, hcol', hrow] at h
              simp at h
              refine ⟨hover, hsub, hcol', ⟨row, hrow, h.2.symm⟩, ?_⟩
              rw [← h.1]
              simp [showMessage, hcol', hover]
        · simp [handleKey, hover, hsub, hletter, hdel, henter] at h

theorem handleKey_stateInv (key : String) (s : GameState) (h : StateInv s) :
    ∃ st, handleKey key s = some st ∧ StateInv st.state ∧
      st.state.currentRow = s.currentRow ∧ st.state.isGameOver = s.isGameOver ∧
      (∀ r, r ≠ s.currentRow → st.state.boardState[r]? = s.boardState[r]?) ∧
      (st.request = none → st.state.isSubmitting = s.isSubmitting) ∧
      (st.request.isSome = true → st.state.isSubmitting = true) := by
  by_cases hlock : (s.isGameOver || s.isSubmitting) = true
  · refine ⟨.done s, by simp [handleKey, hlock], h, rfl, rfl, fun _ _ => rfl, fun _ => rfl, ?_⟩
    intro hreq
    cases hreq
  · have hover : s.isGameOver = false := by
      cases hg : s.isGameOver <;> simp [hg] at hlock ⊢
    have hsub : s.isSubmitting = false := by
      cases hg : s.isSubmitting <;> simp [hg] at hlock ⊢
    by_cases hletter : isLetterKey key = true
    · obtain ⟨s', hs', hinv, hg, hsub', hr, hrows⟩ :=
        insertLetter_stateInv (upperOf key) (isUpper_upperOf key hletter) s h hover
      refine ⟨.done s', by simp [handleKey, hover, hsub, hletter, hs'], hinv, hr, hg, hrows,
        fun _ => hsub', ?_⟩
      intro hreq
      cases hreq
    · by_cases hdel : key = "Del"
      · subst hdel
        obtain ⟨s', hs', hinv, hg, hsub', hr, hrows⟩ := deleteLetter_stateInv s h hover
        refine ⟨.done s', by simp [handleKey, hover, hsub, hletter, hs'], hinv, hr, hg, hrows,
          fun _ => hsub', ?_⟩
        intro hreq
        cases hreq
      · by_cases henter : key = "Enter"
        · subst henter
          by_cases hcol : s.currentCol ≠ COLS
          · refine ⟨.done (showMessage s incompleteMessage),
              by simp [handleKey, hover, hsub, hletter, triggerSubmitStart, hcol],
              stateInv_of_same_board s _ rfl rfl rfl (fun hg => hg) h, rfl, rfl,
              fun _ _ => rfl, fun _ => rfl, ?_⟩
            intro hreq
            cases hreq
          · have hlt : s.currentRow < s.boardState.length := by
              rw [h.rows]; exact h.bound hover
            have hrow : s.boardState[s.currentRow]? = some (s.boardState[s.currentRow]) :=
              List.getElem?_eq_getElem hlt
            refine ⟨.awaiting (showMessage { s with isSubmitting := true } checkingMessage)
                (joinRow (s.boardState[s.currentRow])),
              by simp [handleKey, hover, hsub, hletter, triggerSubmitStart, hcol, hrow],
              stateInv_of_same_board s _ rfl rfl rfl (fun hg => hg) h, rfl, rfl,
              fun _ _ => rfl, ?_, fun _ => rfl⟩
            intro hreq
            cases hreq
        · refine ⟨.done s, by simp [handleKey, hover, hsub, hletter, hdel, henter], h, rfl, rfl,
            fun _ _ => rfl, fun _ => rfl, ?_⟩
          intro hreq
          cases hreq

theorem step_stateInv (confetti : Bool) (ev : Event) (σ : Session) (h : StateInv σ.state)
    (hp : σ.pending.isSome = true → σ.state.isSubmitting = true) :
    ∃ σ', σ.step confetti ev = some σ' ∧ StateInv σ'.state ∧
      (σ'.pending.isSome = true → σ'.state.isSubmitting = true) ∧
      (∀ r, r < σ.state.currentRow → σ'.state.boardState[r]? = σ.state.boardState[r]?) := by
  cases ev with
  | key k =>
    obtain ⟨st, hst, hinv, _, _, hrows, hnone, hsome⟩ := handleKey_stateInv k σ.state h
    cases st with
    | done s' =>
      refine ⟨{ σ with state := s' }, by simp [Session.step, hst], hinv, ?_, ?_⟩
      · intro hpend
        have : s'.isSubmitting = σ.state.isSubmitting := hnone rfl
        rw [show ({ σ with state := s' } : Session).state.isSubmitting = s'.isSubmitting from rfl,
          this]
        exact hp hpend
      · intro r hr
        exact hrows r (Nat.ne_of_lt hr)
    | awaiting s' g =>
      refine ⟨{ state := s', pending := some g }, by simp [Session.step, hst], hinv, ?_, ?_⟩
      · intro _
        exact hsome rfl
      · intro r hr
        exact hrows r (Nat.ne_of_lt hr)
  | judgeResponds res =>
    cases hpend : σ.pending with
    | none => exact ⟨σ, by simp [Session.step, hpend], h, hp, fun _ _ => rfl⟩
    | some g =>
      refine ⟨{ state := triggerSubmitResume confetti res g σ.state, pending := none },
        by simp [Session.step, hpend], triggerSubmitResume_stateInv confetti res g σ.state h,
        ?_, ?_⟩
      · intro hsome
        cases hsome
      · intro r _
        rw [show ({ state := triggerSubmitResume confetti res g σ.state, pending := none } :
          Session).state.boardState = σ.state.boardState from
          (triggerSubmitResume_cases confetti res g σ.state).1]

theorem reachable_stateInv (confetti : Bool) (σ : Session) (h : Reachable confetti σ) :
    StateInv σ.state ∧ (σ.pending.isSome = true → σ.state.isSubmitting = true) := by
  induction h with
  | init => exact ⟨stateInv_initial, fun hsome => by cases hsome⟩
  | next ev _ hstep ih =>
    obtain ⟨σ'', hs, hinv, hp, _⟩ := step_stateInv confetti ev _ ih.1 ih.2
    rw [hstep] at hs
    cases hs
    exact ⟨hinv, hp⟩

theorem reachable_craneSession (confetti : Bool) : Reachable confetti craneSession :=
  Reachable.next (.key "E")
    (Reachable.next (.key "N")
      (Reachable.next (.key "a")
        (Reachable.next (.key "R")
          (Reachable.next (.key "c") Reachable.init rfl) rfl) rfl) rfl) rfl

/-! ## Keys once the game is over -/

theorem runEvents_game_over (confetti : Bool) (evs : List Event) :
    ∀ σ : Session, σ.state.isGameOver = true →
      ∃ σ', runEvents confetti evs σ = some σ' ∧ σ'.state.isGameOver = true := by
  induction evs with
  | nil => intro σ h; exact ⟨σ, rfl, h⟩
  | cons ev evs ih =>
    intro σ h
    have hstep : ∃ σ1, σ.step confetti ev = some σ1 ∧ σ1.state.isGameOver = true := by
      cases ev with
      | key k =>
        exact ⟨σ, by simp [Session.step, handleKey_locked k σ.state (Or.inl h)], h⟩
      | judgeResponds res =>
        cases hpend : σ.pending with
        | none => exact ⟨σ, by simp [Session.step, hpend], h⟩
        | some g =>
          refine ⟨{ state := triggerSubmitResume confetti res g σ.state, pending := none },
            by simp [Session.step, hpend], ?_⟩
          show (triggerSubmitResume confetti res g σ.state).isGameOver = true
          cases hres : (triggerSubmitResume confetti res g σ.state).isGameOver with
          | true => rfl
          | false =>
            rcases (triggerSubmitResume_cases confetti res g σ.state).2.2 with hc | hc
            · have := hc.2.2 hres
              rw [h] at this
              cases this
            · have := (hc.2.2 hres).2
              rw [h] at this
              cases this
    obtain ⟨σ1, h1, hover1⟩ := hstep
    obtain ⟨σ2, h2, hover2⟩ := ih σ1 hover1
    exact ⟨σ2, by simp [runEvents, h1, h2], hover2⟩

/-- C14: once `isGameOver` is true, `handleKey` with any key returns at once:
no judge request is made and the state is the same state (board, cursor,
keyboard state, `isGameOver`); and after any further sequence of keys and judge
responses `isGameOver` is still true. -/
theorem C14_game_over_is_terminal (confetti : Bool) (s : GameState)
    (hover : s.isGameOver = true) :
    (∀ key, ∃ st, handleKey key s = some st ∧ st.request = none ∧ st.state = s) ∧
    (∀ evs pending, ∃ σ', runEvents confetti evs { state := s, pending := pending } = some σ' ∧
      σ'.state.isGameOver = true) :=
  ⟨fun key => ⟨.done s, handleKey_locked key s (Or.inl hover), rfl, rfl⟩,
    fun evs pending => runEvents_game_over confetti evs { state := s, pending := pending } hover⟩

/-- C14 (witness): the won game `wonState`. -/
theorem C14_game_over_is_terminal_witness :
    wonState.isGameOver = true ∧
    (∀ key, ∃ st, handleKey key wonState = some st ∧ st.request = none ∧
      st.state = wonState) ∧
    (∀ evs pending, ∃ σ', runEvents true evs { state := wonState, pending := pending } =
        some σ' ∧ σ'.state.isGameOver = true) :=
  ⟨rfl, C14_game_over_is_terminal true wonState rfl⟩

/-! ## Reachable sessions: rows, bounds and guesses -/

theorem insertLetter_frame (ch : Char) (s : GameState) (row : List Slot)
    (hrow : currentRowSlots s = some row) :
    ∃ s', insertLetter ch s = some s' ∧
      (∀ r, r ≠ s.currentRow → s'.boardState[r]? = s.boardState[r]?) ∧
      s'.currentRow = s.currentRow ∧ s'.isGameOver = s.isGameOver ∧
      s'.isSubmitting = s.isSubmitting ∧ s'.keyState = s.keyState ∧
      s'.messages = s.messages ∧ s'.errorLog = s.errorLog := by
  have hrow' : s.boardState[s.currentRow]? = some row := hrow
  by_cases hc : s.currentCol ≥ COLS
  · exact ⟨s, by simp [insertLetter, hc], fun _ _ => rfl, rfl, rfl, rfl, rfl, rfl, rfl⟩
  · exact ⟨{ s with
        boardState := s.boardState.set s.currentRow (row.set s.currentCol (some ch))
        currentCol := s.currentCol + 1 }, by simp [insertLetter, hc, hrow'],
      fun r hr => List.getElem?_set_ne (Ne.symm hr), rfl, rfl, rfl, rfl, rfl, rfl⟩

theorem deleteLetter_frame (s : GameState) (row : List Slot)
    (hrow : currentRowSlots s = some row) :
    ∃ s', deleteLetter s = some s' ∧
      (∀ r, r ≠ s.currentRow → s'.boardState[r]? = s.boardState[r]?) ∧
      s'.currentRow = s.currentRow ∧ s'.isGameOver = s.isGameOver ∧
      s'.isSubmitting = s.isSubmitting ∧ s'.keyState = s.keyState ∧
      s'.messages = s.messages ∧ s'.errorLog = s.errorLog := by
  have hrow' : s.boardState[s.currentRow]? = some row := hrow
  by_cases hc : s.currentCol ≤ 0
  · exact ⟨s, by simp [deleteLetter, hc], fun _ _ => rfl, rfl, rfl, rfl, rfl, rfl, rfl⟩
  · exact ⟨{ s with
        boardState := s.boardState.set s.currentRow (row.set (s.currentCol - 1) none)
        currentCol := s.currentCol - 1 }, by simp [deleteLetter, hc, hrow'],
      fun r hr => List.getElem?_set_ne (Ne.symm hr), rfl, rfl, rfl, rfl, rfl, rfl⟩

theorem stateInv_current_row (s : GameState) (h : StateInv s) (hover : s.isGameOver = false) :
    ∃ row, currentRowSlots s = some row ∧ row.length = COLS := by
  have hlt : s.currentRow < s.boardState.length := by rw [h.rows]; exact h.bound hover
  exact ⟨s.boardState[s.currentRow], List.getElem?_eq_getElem hlt,
    h.cols _ (List.getElem_mem hlt)⟩

/-- C16: in every reachable session the rows after `currentRow` have all slots
empty; every event (a `handleKey` call or the judge's response that completes a
submission) returns and leaves the rows before `currentRow` as they were; and,
while the game is not over, `insertLetter` and `deleteLetter` return and change
nothing but `boardState[currentRow]` and `currentCol`. -/
theorem C16_rows_frame (confetti : Bool) (σ : Session) (h : Reachable confetti σ) :
    (∀ (r : Nat) (row : List Slot), σ.state.currentRow < r →
      σ.state.boardState[r]? = some row → ∀ x ∈ row, x = none) ∧
    (∀ ev, ∃ σ', σ.step confetti ev = some σ' ∧
      ∀ r, r < σ.state.currentRow → σ'.state.boardState[r]? = σ.state.boardState[r]?) ∧
    (σ.state.isGameOver = false → ∀ ch, ∃ s', insertLetter ch σ.state = some s' ∧
      (∀ r, r ≠ σ.state.currentRow → s'.boardState[r]? = σ.state.boardState[r]?) ∧
      s'.currentRow = σ.state.currentRow ∧ s'.isGameOver = σ.state.isGameOver ∧
      s'.isSubmitting = σ.state.isSubmitting ∧ s'.keyState = σ.state.keyState ∧
      s'.messages = σ.state.messages ∧ s'.errorLog = σ.state.errorLog) ∧
    (σ.state.isGameOver = false → ∃ s', deleteLetter σ.state = some s' ∧
      (∀ r, r ≠ σ.state.currentRow → s'.boardState[r]? = σ.state.boardState[r]?) ∧
      s'.currentRow = σ.state.currentRow ∧ s'.isGameOver = σ.state.isGameOver ∧
      s'.isSubmitting = σ.state.isSubmitting ∧ s'.keyState = σ.state.keyState ∧
      s'.messages = σ.state.messages ∧ s'.errorLog = σ.state.errorLog) := by
  obtain ⟨hinv, hp⟩ := reachable_stateInv confetti σ h
  refine ⟨hinv.later, ?_, ?_, ?_⟩
  · intro ev
    obtain ⟨σ', hs, _, _, hrows⟩ := step_stateInv confetti ev σ hinv hp
    exact ⟨σ', hs, hrows⟩
  · intro hover ch
    obtain ⟨row, hrow, _⟩ := stateInv_current_row σ.state hinv hover
    exact insertLetter_frame ch σ.state row hrow
  · intro hover
    obtain ⟨row, hrow, _⟩ := stateInv_current_row σ.state hinv hover
    exact deleteLetter_frame σ.state row hrow

/-- C18: in every reachable session, if `isGameOver` is false then
`currentRow < ROWS` (so `currentRow = ROWS` only with `isGameOver` true), the
board has `ROWS` rows, the row `boardState[currentRow]` exists, and every
`handleKey` call and every event returns without a `TypeError`. -/
theorem C18_current_row_in_bounds (confetti : Bool) (σ : Session) (h : Reachable confetti σ) :
    (σ.state.isGameOver = false → σ.state.currentRow < ROWS) ∧
    (σ.state.currentRow = ROWS → σ.state.isGameOver = true) ∧
    σ.state.boardState.length = ROWS ∧
    (σ.state.isGameOver = false →
      ∃ row, currentRowSlots σ.state = some row ∧ row.length = COLS) ∧
    (∀ key, ∃ st, handleKey key σ.state = some st) ∧
    (∀ ev, ∃ σ', σ.step confetti ev = some σ') := by
  obtain ⟨hinv, hp⟩ := reachable_stateInv confetti σ h
  refine ⟨hinv.bound, ?_, hinv.rows, stateInv_current_row σ.state hinv, ?_, ?_⟩
  · intro hrow
    cases hover : σ.state.isGameOver with
    | true => rfl
    | false =>
      have := hinv.bound hover
      omega
  · intro key
    obtain ⟨st, hst, _⟩ := handleKey_stateInv key σ.state hinv
    exact ⟨st, hst⟩
  · intro ev
    obtain ⟨σ', hs, _⟩ := step_stateInv confetti ev σ hinv hp
    exact ⟨σ', hs⟩

/-- C18 (witness): the session after the keys `C`, `R`, `A`, `N`, `E`. -/
theorem C18_current_row_in_bounds_witness :
    craneSession.state.isGameOver = false ∧ craneSession.state.currentRow < ROWS ∧
    (∀ key, ∃ st, handleKey key craneSession.state = some st) :=
  ⟨rfl, (C18_current_row_in_bounds true craneSession (reachable_craneSession true)).1 rfl,
    (C18_current_row_in_bounds true craneSession (reachable_craneSession true)).2.2.2.2.1⟩

theorem map_some_joinRow (row : List Slot) (h : ∀ x ∈ row, x.isSome = true) :
    (joinRow row).map some = row := by
  induction row with
  | nil => rfl
  | cons x xs ih =>
    have hx : x.isSome = true := h x (by simp)
    have hxs : ∀ y ∈ xs, y.isSome = true := fun y hy => h y (by simp [hy])
    cases x with
    | none => cases hx
    | some c =>
      have := ih hxs
      simp only [joinRow] at this ⊢
      simp [List.filterMap_cons, this]

theorem all_some_of_prefixFilled (row : List Slot) (h : PrefixFilled row row.length) :
    ∀ x ∈ row, x.isSome = true := by
  intro x hx
  obtain ⟨i, hi, hget⟩ := List.mem_iff_getElem.mp hx
  have := (h i hi).mpr hi
  rw [List.getD_eq_getElem?_getD, List.getElem?_eq_getElem hi] at this
  rw [← hget]
  simpa using this

/-- C19: in every reachable session, a guess that `handleKey` passes to the
judge has length `COLS`, consists of upper-case letters `A`-`Z` only, and is the
sequence of the letters of `boardState[currentRow]` in column order. -/
theorem C19_submitted_guess (confetti : Bool) (σ : Session) (h : Reachable confetti σ)
    (key : String) (s' : GameState) (g : List Char)
    (hreq : handleKey key σ.state = some (.awaiting s' g)) :
    g.length = COLS ∧ (∀ c ∈ g, c.isUpper = true) ∧
      currentRowSlots σ.state = some (g.map some) := by
  obtain ⟨hinv, _⟩ := reachable_stateInv confetti σ h
  obtain ⟨hover, _, hcol, ⟨row, hrow, hg⟩, _⟩ := handleKey_awaiting key σ.state s' g hreq
  obtain ⟨row', hrow', hlen⟩ := stateInv_current_row σ.state hinv hover
  rw [hrow] at hrow'
  cases hrow'
  have hfill : PrefixFilled row row.length := by
    rw [hlen, ← hcol]
    exact (hinv.cursor row hrow).2
  have hmap : g.map some = row := by
    rw [hg]
    exact map_some_joinRow row (all_some_of_prefixFilled row hfill)
  refine ⟨?_, ?_, by rw [hmap]; exact hrow⟩
  · have : (g.map some).length = row.length := by rw [hmap]
    rw [← hlen, ← this]
    simp
  · intro c hc
    have hmem : some c ∈ row := by
      rw [← hmap]
      exact List.mem_map_of_mem some hc
    exact hinv.upper row (List.getElem?_mem hrow) c hmem

/-- C19 (witness): after the keys `c`, `R`, `a`, `N`, `E`, the key `Enter`
passes `CRANE` to the judge. -/
theorem C19_submitted_guess_witness :
    handleKey "Enter" craneSession.state =
      some (.awaiting inFlightState ['C', 'R', 'A', 'N', 'E']) ∧
    ['C', 'R', 'A', 'N', 'E'].length = COLS ∧
    (∀ c ∈ ['C', 'R', 'A', 'N', 'E'], c.isUpper = true) ∧
    currentRowSlots craneSession.state = some (['C', 'R', 'A', 'N', 'E'].map some) :=
  ⟨rfl, C19_submitted_guess true craneSession (reachable_craneSession true) "Enter"
    inFlightState ['C', 'R', 'A', 'N', 'E'] rfl⟩

/-! ## Which field carries the feedback -/

/-- C17 (counterexample): in the payload `{result: false, feedback: [green,
gray, yellow, green, green]}` the field `result` is present, yet the feedback
that `triggerSubmit` uses is the value of `feedback`, not the value of the first
present field; the submit is accepted and the row advances. -/
theorem C17_present_falsy_field_is_skipped :
    falseResultPayload.result ≠ .missing ∧
    specFirstPresent falseResultPayload = .bool false ∧
    feedbackOf falseResultPayload = .arr ["green", "gray", "yellow", "green", "green"] ∧
    feedbackOf falseResultPayload ≠ specFirstPresent falseResultPayload ∧
    ∃ s', triggerSubmit true falseResultJudge craneState = some s' ∧
      s'.currentRow = craneState.currentRow + 1 ∧ displayed s' = some nextRowMessage :=
  ⟨by decide, by decide, by decide, by decide, _, rfl, rfl, by decide⟩

/-- C17 (amended): the feedback that `triggerSubmit` uses is the value of the
first field with a truthy value in the order `result`, `feedback`, `colors`
(the value of `colors` when neither `result` nor `feedback` is truthy); a later
field is consulted only when every earlier field is missing or falsy.  When
every earlier field is either missing or truthy this is the first present
field.  The outcome of the submit depends on the three fields only through
that value. -/
theorem C17_first_truthy_field (p : Payload) :
    (p.result.truthy = true → feedbackOf p = p.result) ∧
    (p.result.truthy = false → p.feedback.truthy = true → feedbackOf p = p.feedback) ∧
    (p.result.truthy = false → p.feedback.truthy = false → feedbackOf p = p.colors) ∧
    ((p.result = .missing ∨ p.result.truthy = true) →
      (p.feedback = .missing ∨ p.feedback.truthy = true) →
      feedbackOf p = specFirstPresent p) ∧
    (∀ (confetti : Bool) (res res' : HttpResult) (p' : Payload) (g : List Char)
      (s : GameState), apiCheckGuess res = .ok (.obj p) →
      apiCheckGuess res' = .ok (.obj p') → feedbackOf p' = feedbackOf p → p'.win = p.win →
      p'.answer = p.answer →
      triggerSubmitResume confetti res' g s = triggerSubmitResume confetti res g s) := by
  refine ⟨?_, ?_, ?_, ?_, ?_⟩
  · intro h
    simp [feedbackOf, Field.or, h]
  · intro h1 h2
    simp [feedbackOf, Field.or, h1, h2]
  · intro h1 h2
    simp [feedbackOf, Field.or, h1, h2]
  · intro h1 h2
    have hmiss : Field.truthy .missing = false := rfl
    rcases h1 with h1 | h1
    · rcases h2 with h2 | h2
      · simp [feedbackOf, Field.or, specFirstPresent, h1, h2, hmiss]
      · have hne : p.feedback ≠ .missing := by
          intro hm
          rw [hm] at h2
          cases h2
        simp [feedbackOf, Field.or, specFirstPresent, h1, h2, hne, hmiss]
    · have hne : p.result ≠ .missing := by
        intro hm
        rw [hm] at h1
        cases h1
      simp [feedbackOf, Field.or, specFirstPresent, h1, hne]
  · intro confetti res res' p' g s hok hok' hf hw ha
    simp [triggerSubmitResume, tryBlock, hok, hok', hf, isWin, hw, lossMessage, ha]

/-- C17 (witness): with `result` missing and `feedback` an array, the feedback
used is the value of `feedback`, which is the first present field. -/
theorem C17_first_truthy_field_witness :
    feedbackOf { feedback := .arr ["green", "gray", "yellow", "green", "green"],
                 colors := .arr ["gray", "gray", "gray", "gray", "gray"] } =
      .arr ["green", "gray", "yellow", "green", "green"] ∧
    feedbackOf { feedback := .arr ["green", "gray", "yellow", "green", "green"],
                 colors := .arr ["gray", "gray", "gray", "gray", "gray"] } =
      specFirstPresent { feedback := .arr ["green", "gray", "yellow", "green", "green"],
                         colors := .arr ["gray", "gray", "gray", "gray", "gray"] } :=
  ⟨(C17_first_truthy_field
      { feedback := .arr ["green", "gray", "yellow", "green", "green"],
        colors := .arr ["gray", "gray", "gray", "gray", "gray"] }).2.1 rfl rfl,
    (C17_first_truthy_field
      { feedback := .arr ["green", "gray", "yellow", "green", "green"],
        colors := .arr ["gray", "gray", "gray", "gray", "gray"] }).2.2.2.1
      (Or.inl rfl) (Or.inr rfl)⟩

/-! ## The message after a win -/

theorem win_message_displayed_of_confetti (judge : List Char → HttpResult) (s : GameState)
    (row : List Slot) (p : Payload) (tokens : List String)
    (hcol : s.currentCol = COLS) (hrow : currentRowSlots s = some row)
    (hok : apiCheckGuess (judge (joinRow row)) = .ok (.obj p))
    (hf : feedbackOf p = .arr tokens) (hlen : tokens.length = 5)
    (hwin : isWin p (.arr tokens) = true) :
    ∃ s', triggerSubmit true judge s = some s' ∧ displayed s' = some winMessage ∧
      s'.messages = s.messages ++ [checkingMessage, winMessage] ∧
      s'.errorLog = s.errorLog := by
  have heq := triggerSubmit_of_full true judge s row hcol hrow
  rw [triggerSubmitResume_win true _ _ _ p tokens hok hf hlen hwin] at heq
  refine ⟨_, heq, ?_, ?_, ?_⟩
  · simp [displayed, showMessage]
  · simp [showMessage]
  · simp [showMessage]

/-- C20 (the code at the failing input): the first row `CRANE` is answered five
`"correct"` tokens on a page where `startConfetti` is not defined.  The win text
is shown and `isGameOver` is set, then the call of `startConfetti` throws inside
the `try` block and the `catch` branch shows its generic error text, which is
the text left on display. -/
theorem C20_win_message_overwritten :
    ∃ s', triggerSubmit false allCorrectJudge craneState = some s' ∧
      s'.isGameOver = true ∧
      s'.messages = craneState.messages ++ [checkingMessage, winMessage, errorMessage] ∧
      displayed s' = some errorMessage ∧ displayed s' ≠ some winMessage ∧
      s'.errorLog = ["ReferenceError: startConfetti is not defined"] :=
  ⟨_, rfl, rfl, by decide, by decide, by decide, by decide⟩

/-! ## Reachable sessions: what the lock keeps -/

theorem triggerSubmitResume_col (confetti : Bool) (res : HttpResult)
    (currentGuess : List Char) (s : GameState) :
    ((triggerSubmitResume confetti res currentGuess s).currentCol = s.currentCol ∧
        (triggerSubmitResume confetti res currentGuess s).currentRow = s.currentRow) ∨
      ((triggerSubmitResume confetti res currentGuess s).currentRow = s.currentRow + 1 ∧
        ((triggerSubmitResume confetti res currentGuess s).isGameOver = true →
          s.currentRow + 1 ≥ ROWS ∨ s.isGameOver = true)) := by
  unfold triggerSubmitResume tryBlock
  cases apiCheckGuess res with
  | error e => exact Or.inl ⟨rfl, rfl⟩
  | ok body =>
    cases body with
    | null => exact Or.inl ⟨rfl, rfl⟩
    | falsy => exact Or.inl ⟨rfl, rfl⟩
    | obj p =>
      by_cases hbad : (!(feedbackOf p).truthy || (feedbackOf p).length? != some 5) = true
      · simp only [hbad, if_true]
        exact Or.inl ⟨rfl, rfl⟩
      · simp only [hbad]
        cases happ : applyColors (feedbackOf p) currentGuess s with
        | none => exact Or.inl ⟨rfl, rfl⟩
        | some s1 =>
          obtain ⟨_, hr, hc, hg⟩ := applyColors_frame _ _ _ _ happ
          by_cases hwin : isWin p (feedbackOf p) = true
          · cases confetti
            · simp only [hwin, if_true]
              exact Or.inl ⟨hc, hr⟩
            · simp only [hwin, if_true]
              exact Or.inl ⟨hc, hr⟩
          · by_cases hlast : s1.currentRow + 1 ≥ ROWS
            · simp only [hwin, hlast, if_true]
              exact Or.inr ⟨by rw [← hr]; rfl, fun _ => Or.inl (by rw [← hr]; exact hlast)⟩
            · simp only [hwin, hlast, if_false]
              refine Or.inr ⟨by rw [← hr]; rfl, fun h => Or.inr ?_⟩
              have hg' : s1.isGameOver = true := h
              rw [← hg]
              exact hg'

theorem lockInv_of_same (σ : Session) (s' : GameState) (hl : LockInv σ)
    (hg : s'.isGameOver = σ.state.isGameOver) (hsub : s'.isSubmitting = σ.state.isSubmitting)
    (hover : σ.state.isGameOver = false) (hfree : σ.state.isSubmitting = false) :
    LockInv { σ with state := s' } where
  pend := by
    intro hp
    have := (hl.pend hp).1
    rw [hfree] at this
    cases this
  flight := by
    intro h
    have h' : s'.isSubmitting = true := h
    rw [hsub, hfree] at h'
    cases h'
  won := by
    intro h _
    have h' : s'.isGameOver = true := h
    rw [hg, hover] at h'
    cases h'

theorem step_lockInv (confetti : Bool) (ev : Event) (σ σ' : Session)
    (hinv : StateInv σ.state) (hl : LockInv σ) (hs : σ.step confetti ev = some σ') :
    LockInv σ' := by
  cases ev with
  | key k =>
    by_cases hlock : σ.state.isGameOver = true ∨ σ.state.isSubmitting = true
    · have hk := handleKey_locked k σ.state hlock
      simp only [Session.step, hk, Option.some.injEq] at hs
      rw [← hs]
      exact hl
    · have hover : σ.state.isGameOver = false := by
        cases hg : σ.state.isGameOver with
        | false => rfl
        | true => exact absurd (Or.inl hg) hlock
      have hfree : σ.state.isSubmitting = false := by
        cases hg : σ.state.isSubmitting with
        | false => rfl
        | true => exact absurd (Or.inr hg) hlock
      obtain ⟨st, hst, _, _, hg, _, hnone, _⟩ := handleKey_stateInv k σ.state hinv
      cases st with
      | done s' =>
        simp only [Session.step, hst, Option.some.injEq] at hs
        rw [← hs]
        exact lockInv_of_same σ s' hl hg (hnone rfl) hover hfree
      | awaiting s' g =>
        obtain ⟨_, _, hcol, _, hs'⟩ := handleKey_awaiting k σ.state s' g hst
        simp only [Session.step, hst, Option.some.injEq] at hs
        rw [← hs, hs']
        exact ⟨fun _ => ⟨rfl, hover⟩, fun _ => hcol, fun h => by
          have h' : σ.state.isGameOver = true := h
          rw [hover] at h'
          cases h'⟩
  | judgeResponds res =>
    cases hpend : σ.pending with
    | none =>
      simp only [Session.step, hpend, Option.some.injEq] at hs
      rw [← hs]
      exact hl
    | some g =>
      have hp := hl.pend (by rw [hpend]; rfl)
      have hcol := hl.flight hp.1
      simp only [Session.step, hpend, Option.some.injEq] at hs
      rw [← hs]
      refine ⟨fun h => (by cases h), fun h => ?_, fun hover hrow => ?_⟩
      · have h' : (triggerSubmitResume confetti res g σ.state).isSubmitting = true := h
        have hf : (triggerSubmitResume confetti res g σ.state).isSubmitting = false := rfl
        rw [hf] at h'
        cases h'
      · have hover' : (triggerSubmitResume confetti res g σ.state).isGameOver = true := hover
        have hrow' : (triggerSubmitResume confetti res g σ.state).currentRow < ROWS := hrow
        show (triggerSubmitResume confetti res g σ.state).currentCol = COLS
        rcases triggerSubmitResume_col confetti res g σ.state with hc | hc
        · rw [hc.1]
          exact hcol
        · rw [hc.1] at hrow'
          rcases hc.2 hover' with hge | hg
          · omega
          · rw [hp.2] at hg
            cases hg

theorem reachable_lockInv (confetti : Bool) (σ : Session) (h : Reachable confetti σ) :
    LockInv σ := by
  induction h with
  | init =>
    exact ⟨fun h => (by cases h), fun h => (by cases h), fun h => (by cases h)⟩
  | next ev before hstep ih =>
    exact step_lockInv confetti ev _ _ (reachable_stateInv confetti _ before).1 ih hstep

theorem reachable_inFlightSession (confetti : Bool) : Reachable confetti inFlightSession :=
  Reachable.next (.key "Enter") (reachable_craneSession confetti) rfl

theorem reachable_secondRowSession : Reachable true secondRowSession :=
  Reachable.next (.judgeResponds (mixedNoWinJudge ['C', 'R', 'A', 'N', 'E']))
    (reachable_inFlightSession true) rfl

/-- C16 (witness): the session after `CRANE` was judged and was not a win:
`currentRow` is 1 and row 0 is finalized.  Every event leaves row 0 as it is,
in particular the key `s`, which writes into row 1; the rows after row 1 are
empty. -/
theorem C16_rows_frame_witness :
    secondRowSession.state.currentRow = 1 ∧
    secondRowSession.state.boardState[0]? =
      some [some 'C', some 'R', some 'A', some 'N', some 'E'] ∧
    (∀ (r : Nat) (row : List Slot), secondRowSession.state.currentRow < r →
      secondRowSession.state.boardState[r]? = some row → ∀ x ∈ row, x = none) ∧
    (∀ ev, ∃ σ', secondRowSession.step true ev = some σ' ∧
      ∀ r, r < secondRowSession.state.currentRow →
        σ'.state.boardState[r]? = secondRowSession.state.boardState[r]?) ∧
    (∃ σ', secondRowSession.step true (.key "s") = some σ' ∧
      σ'.state.boardState[1]? = some [some 'S', none, none, none, none] ∧
      σ'.state.boardState[0]? = some [some 'C', some 'R', some 'A', some 'N', some 'E']) := by
  have hthm := C16_rows_frame true secondRowSession reachable_secondRowSession
  refine ⟨rfl, rfl, hthm.1, hthm.2.1, ?_⟩
  obtain ⟨σ', hs, hrows⟩ := hthm.2.1 (.key "s")
  refine ⟨σ', hs, ?_, ?_⟩
  · have hval : (secondRowSession.step true (.key "s")).map
        (fun σ => σ.state.boardState[1]?) =
        some (some [some 'S', none, none, none, none]) := rfl
    rw [hs] at hval
    exact Option.some.inj hval
  · rw [hrows 0 (by decide)]
    rfl

/-! ## The two editing operations -/

/-- C15: the insertion of a letter is a no-op if `currentCol` is `COLS`
(`insertLetter`, line 104), or if the game is over or a submission is in flight
(`handleKey`, line 92, the one caller of `insertLetter`; this holds in every
state, also in a lost game where `currentRow` is `ROWS`).  In a reachable
session `insertLetter` by itself is a no-op too while a submission is in flight
and after a win, because the current row is full then.  Otherwise, with the
game not over and no submission in flight, it writes the letter at
`boardState[currentRow][currentCol]` and adds 1 to `currentCol`.
`deleteLetter` is a no-op if `currentCol` is 0; otherwise it subtracts 1 from
`currentCol` and empties that slot. -/
theorem C15_insert_delete (s : GameState) :
    (∀ ch, s.currentCol = COLS → insertLetter ch s = some s) ∧
    (∀ key, isLetterKey key = true →
      s.currentCol = COLS ∨ s.isGameOver = true ∨ s.isSubmitting = true →
      handleKey key s = some (.done s)) ∧
    (∀ confetti pending, Reachable confetti { state := s, pending := pending } →
      s.isSubmitting = true ∨ (s.isGameOver = true ∧ s.currentRow < ROWS) →
      ∀ ch, insertLetter ch s = some s) ∧
    (∀ row, currentRowSlots s = some row → row.length = COLS → s.currentCol < COLS →
      s.isGameOver = false → s.isSubmitting = false →
      (∀ ch, insertLetter ch s = some { s with
          boardState := s.boardState.set s.currentRow (row.set s.currentCol (some ch))
          currentCol := s.currentCol + 1 } ∧
        (row.set s.currentCol (some ch))[s.currentCol]? = some (some ch)) ∧
      (∀ key, isLetterKey key = true →
        handleKey key s = some (.done { s with
          boardState := s.boardState.set s.currentRow
            (row.set s.currentCol (some (upperOf key)))
          currentCol := s.currentCol + 1 }))) ∧
    (s.currentCol = 0 → deleteLetter s = some s) ∧
    (∀ row, currentRowSlots s = some row → row.length = COLS → 0 < s.currentCol →
      s.currentCol ≤ COLS →
      deleteLetter s = some { s with
        boardState := s.boardState.set s.currentRow (row.set (s.currentCol - 1) none)
        currentCol := s.currentCol - 1 } ∧
      (row.set (s.currentCol - 1) none)[s.currentCol - 1]? = some none) := by
  refine ⟨?_, ?_, ?_, ?_, ?_, ?_⟩
  · intro ch hc
    simp [insertLetter, hc]
  · intro key hletter hor
    rcases hor with hc | hg | hsub
    · by_cases hlock : (s.isGameOver || s.isSubmitting) = true
      · simp [handleKey, hlock]
      · simp [handleKey, hlock, hletter, insertLetter, hc]
    · exact handleKey_locked key s (Or.inl hg)
    · exact handleKey_locked key s (Or.inr hsub)
  · intro confetti pending hreach hor ch
    have hl := reachable_lockInv confetti _ hreach
    have hc : s.currentCol = COLS := by
      rcases hor with hsub | ⟨hg, hrow⟩
      · exact hl.flight hsub
      · exact hl.won hg hrow
    simp [insertLetter, hc]
  · intro row hrow hlen hc hg hsub
    have hrow' : s.boardState[s.currentRow]? = some row := hrow
    have hnot : ¬ (s.currentCol ≥ COLS) := Nat.not_le.mpr hc
    refine ⟨fun ch => ⟨by simp [insertLetter, hnot, hrow'], ?_⟩, ?_⟩
    · have : s.currentCol < row.length := by rw [hlen]; exact hc
      simp [List.getElem?_set, this]
    · intro key hletter
      simp [handleKey, hg, hsub, hletter, insertLetter, hnot, hrow']
  · intro hc
    simp [deleteLetter, hc]
  · intro row hrow hlen hc hle
    have hrow' : s.boardState[s.currentRow]? = some row := hrow
    have hnot : ¬ (s.currentCol ≤ 0) := Nat.not_le.mpr hc
    refine ⟨by simp [deleteLetter, hnot, hrow'], ?_⟩
    have : s.currentCol - 1 < row.length := by rw [hlen]; omega
    simp [List.getElem?_set, this]

/-- C15 (witness): a letter key changes nothing in the won game `wonState`, in
the lost game `lostState` (where `currentRow` is `ROWS`), while `CRANE` is in
flight, and on the full row `CRANE`; `insertLetter` by itself changes nothing
while `CRANE` is in flight; on the row `C, R, _, _, _` with `currentCol = 2`
the key `a` writes `A` in slot 2 and `deleteLetter` empties slot 1. -/
theorem C15_insert_delete_witness :
    (wonState.isGameOver = true ∧ handleKey "a" wonState = some (.done wonState)) ∧
    (lostState.isGameOver = true ∧ lostState.currentRow = ROWS ∧
      handleKey "a" lostState = some (.done lostState)) ∧
    (inFlightState.isSubmitting = true ∧
      handleKey "a" inFlightState = some (.done inFlightState)) ∧
    insertLetter 'A' inFlightState = some inFlightState ∧
    handleKey "z" craneState = some (.done craneState) ∧
    handleKey "a" partialState = some (.done { partialState with
      boardState := partialState.boardState.set partialState.currentRow
        ([some 'C', some 'R', none, none, none].set partialState.currentCol
          (some (upperOf "a")))
      currentCol := partialState.currentCol + 1 }) ∧
    (deleteLetter partialState = some { partialState with
        boardState := partialState.boardState.set partialState.currentRow
          ([some 'C', some 'R', none, none, none].set (partialState.currentCol - 1) none)
        currentCol := partialState.currentCol - 1 } ∧
      ([some 'C', some 'R', none, none, none].set (partialState.currentCol - 1) none)[
        partialState.currentCol - 1]? = some none) :=
  ⟨⟨rfl, (C15_insert_delete wonState).2.1 "a" (by decide) (Or.inr (Or.inl rfl))⟩,
    ⟨rfl, rfl, (C15_insert_delete lostState).2.1 "a" (by decide) (Or.inr (Or.inl rfl))⟩,
    ⟨rfl, (C15_insert_delete inFlightState).2.1 "a" (by decide) (Or.inr (Or.inr rfl))⟩,
    (C15_insert_delete inFlightState).2.2.1 true (some ['C', 'R', 'A', 'N', 'E'])
      (reachable_inFlightSession true) (Or.inl rfl) 'A',
    (C15_insert_delete craneState).2.1 "z" (by decide) (Or.inl rfl),
    ((C15_insert_delete partialState).2.2.2.1 [some 'C', some 'R', none, none, none]
      rfl rfl (by decide) rfl rfl).2 "a" (by decide),
    (C15_insert_delete partialState).2.2.2.2.2 [some 'C', some 'R', none, none, none]
      rfl rfl (by decide) (by decide)⟩

/-! ## The cursor in the states the page can be in -/

/-- C1: in every reachable session whose `currentRow` is below `ROWS`, the
current row exists, `currentCol` is in `[0, COLS]` and equals the number of
non-empty slots of the current row; and from there every finite sequence of
`insertLetter` / `deleteLetter` calls returns, stays on the same row, and leaves
`currentCol` in `[0, COLS]` and equal to the number of non-empty slots of the
current row. -/
theorem C1_cursor_invariant (confetti : Bool) (σ : Session) (h : Reachable confetti σ)
    (hrow : σ.state.currentRow < ROWS) (ops : List EditOp) :
    (∃ row, currentRowSlots σ.state = some row ∧ σ.state.currentCol ≤ COLS ∧
      σ.state.currentCol = filledCount row) ∧
    ∃ s' row', runEdits ops σ.state = some s' ∧ s'.currentRow = σ.state.currentRow ∧
      currentRowSlots s' = some row' ∧ s'.currentCol ≤ COLS ∧
      s'.currentCol = filledCount row' := by
  obtain ⟨hinv, _⟩ := reachable_stateInv confetti σ h
  have hlt : σ.state.currentRow < σ.state.boardState.length := by rw [hinv.rows]; exact hrow
  have hget : currentRowSlots σ.state = some (σ.state.boardState[σ.state.currentRow]) :=
    List.getElem?_eq_getElem hlt
  have hlen : (σ.state.boardState[σ.state.currentRow]).length = COLS :=
    hinv.cols _ (List.getElem_mem hlt)
  obtain ⟨hcol, hfill⟩ := hinv.cursor _ hget
  refine ⟨⟨_, hget, hcol, ?_⟩, ?_⟩
  · exact (filledCount_of_prefixFilled _ _ (by rw [hlen]; exact hcol) hfill).symm
  · obtain ⟨s', row', hrun, hr, hrow', _, hcol', hcount, _⟩ :=
      runEdits_cursor_invariant σ.state ops _ hget hlen hcol hfill
    exact ⟨s', row', hrun, hr, hrow', hcol', hcount⟩

/-- C1 (witness): from the session after the keys `C`, `R`, `A`, `N`, `E`, the
calls delete, delete, insert `X`, insert `Y`, insert `Z`, delete. -/
theorem C1_cursor_invariant_witness :
    craneSession.state.currentRow < ROWS ∧
    (∃ row, currentRowSlots craneSession.state = some row ∧
      craneSession.state.currentCol ≤ COLS ∧
      craneSession.state.currentCol = filledCount row) ∧
    ∃ s' row', runEdits [.delete, .delete, .insert 'X', .insert 'Y', .insert 'Z', .delete]
        craneSession.state = some s' ∧ s'.currentRow = craneSession.state.currentRow ∧
      currentRowSlots s' = some row' ∧ s'.currentCol ≤ COLS ∧
      s'.currentCol = filledCount row' :=
  ⟨by decide, C1_cursor_invariant true craneSession (reachable_craneSession true) (by decide)
    [.delete, .delete, .insert 'X', .insert 'Y', .insert 'Z', .delete]⟩

end Wordle
